import Mathlib

/-!
Verification of the data-derivation layer of the Ubeswap info dashboard
(chart gap-filling, weekly re-aggregation, bulk pair assembly, block
resolution queries, top-LP assembly, pagination loops, query batching).

The definitions below are a shallow embedding of the TypeScript source:
JS numbers holding decimal metric values are modelled as `ℚ`, unix
timestamps and block numbers as `Nat`, fallible async calls as
`Except Unit` values supplied by an environment record, and JS arrays as
`List`.  Functions named after source functions follow the source line by
line; helpers marked "Modelled from the spec" stand in for code of the
repository that is not part of the available source tree.  JS `while`
loops are embedded as structurally recursive functions on an explicit
fuel, applied to more fuel than the loop can consume; a `stable` lemma
shows the result is independent of the fuel past the loop's iteration
bound, so the embedding computes the loop's actual result.
-/

namespace UbeswapInfo

/-- `const oneDay = 24 * 60 * 60` in `getChartData` / `getPairChartData`. -/
def oneDay : Nat := 24 * 60 * 60

/-- JS `(date / oneDay).toFixed(0)`: the float quotient rounded to the nearest
integer (for the magnitudes involved the double division is exact enough that
this is the exact rational rounding; ties round up for nonnegative values).
The source stores these as strings in a `Set`; string equality of decimal
representations of naturals coincides with numeric equality, so they are kept
as `Nat` here. -/
def dayIndexJS (d : Nat) : Nat := (2 * d + oneDay) / (2 * oneDay)

/-- One `ubeswapDayDatas` entry as consumed by `getChartData`
(`date`, `dailyVolumeUSD`, `totalLiquidityUSD`, `mostLiquidTokens`); the
`mostLiquidTokens` payload is carried but never inspected, so its type is a
parameter. -/
structure GDay (μ : Type) where
  date : Nat
  dailyVolumeUSD : ℚ
  totalLiquidityUSD : ℚ
  mostLiquidTokens : μ
deriving DecidableEq

/-- One `pairDayDatas` entry as consumed by `getPairChartData`.  Fetched
entries have no `dayString` field (`none`); synthesized entries set it. -/
structure PDay where
  date : Nat
  dayString : Option Nat
  dailyVolumeUSD : ℚ
  reserveUSD : ℚ
deriving DecidableEq

/-- JS `Array.prototype.sort` with the comparator
`(a, b) => (parseInt(a.date) > parseInt(b.date) ? 1 : -1)`, i.e. a sort by
ascending `key`.  Embedded as insertion sort; all uses in the source sort
lists whose keys are pairwise distinct, where every comparison sort agrees. -/
def sortByKey {α : Type} (key : α → Nat) (l : List α) : List α :=
  @List.insertionSort α (fun a b => key a ≤ key b) (fun a b => Nat.decLe _ _) l

/-- The body of the gap-filling `while (timestamp < utcEndTime.unix() - oneDay)`
loop shared by `getChartData` (GlobalData.tsx, lines 437-459) and
`getPairChartData` (lines 420-441), with an explicit iteration fuel.
`carry` reads the carried cumulative value(s) out of an existing entry
(`totalLiquidityUSD` + `mostLiquidTokens`, resp. `reserveUSD`) and
`mk nextDay st` is the record pushed for a missing day; `dSet` is the
`dayIndexSet` and `arr` the `dayIndexArray` built beforehand.  Returns the
synthesized records in push order (the source appends them to `data`).
JS `dayIndexArray[index]` on an out-of-range index would throw; that access
is modelled by `getD st` and is never exercised under the theorems'
hypotheses (the index stays in range for sorted, day-aligned input). -/
def fillEmptyLoopF {α β : Type} (carry : α → β) (mk : Nat → β → α)
    (dSet : List Nat) (arr : List α) (E : Nat) :
    Nat → Nat → β → Nat → List α
  | 0, _, _, _ => []
  | fuel + 1, ts, st, idx =>
    if ts < E - oneDay then
      let nextDay := ts + oneDay
      if dayIndexJS nextDay ∈ dSet then
        fillEmptyLoopF carry mk dSet arr E fuel nextDay
          ((arr[idx]?.map carry).getD st) (idx + 1)
      else
        mk nextDay st :: fillEmptyLoopF carry mk dSet arr E fuel nextDay st idx
    else []

/-- The gap-filling loop itself, run with ample fuel
(see `fillEmptyLoopF_stable`). -/
def fillEmptyLoop {α β : Type} (carry : α → β) (mk : Nat → β → α)
    (dSet : List Nat) (arr : List α) (E ts : Nat) (st : β) (idx : Nat) : List α :=
  fillEmptyLoopF carry mk dSet arr E (E - oneDay - ts + 1) ts st idx

/-- The dates pushed by the gap-filling loop: its control flow depends only on
the date set, not on the carried payload. -/
def fillDatesF (dSet : List Nat) (E : Nat) : Nat → Nat → List Nat
  | 0, _ => []
  | fuel + 1, ts =>
    if ts < E - oneDay then
      let nextDay := ts + oneDay
      if dayIndexJS nextDay ∈ dSet then
        fillDatesF dSet E fuel nextDay
      else
        nextDay :: fillDatesF dSet E fuel nextDay
    else []

def fillDates (dSet : List Nat) (E ts : Nat) : List Nat :=
  fillDatesF dSet E (E - oneDay - ts + 1) ts

/-- One element of the `offsetData` array fed to `getChartData`: a JS object
indexed by date (`dayData[date]` truthiness) that also carries a
`dailyVolumeUSD`.  In the deployed code `offsetVolumes` is the empty list, so
this list is empty at every call site. -/
structure Offset where
  hasDate : Nat → Bool
  dailyVolumeUSD : ℚ

/-- GlobalData.tsx lines 470-477: each `offsetData` entry holding the date
subtracts its `dailyVolumeUSD` from that day's volume, cumulatively
(`data[i].dailyVolumeUSD = data[i].dailyVolumeUSD - dayData.dailyVolumeUSD`). -/
def applyOffsets (offs : List Offset) (date : Nat) (v : ℚ) : ℚ :=
  offs.foldl (fun acc o => if o.hasDate date then acc - o.dailyVolumeUSD else acc) v

/-- Gregorian (year, month 1-12, day of month) of a day count since 1970-01-01;
the standard civil-from-days computation, valid for `ed ≥ 0` (all timestamps
handled by the dashboard are after 1970).  Embeds the UTC calendar accessors
(`.month()`, `.date()`, `.year()`) of the date library. -/
def civilFromDays (ed : Nat) : Nat × Nat × Nat :=
  let z := ed + 719468
  let era := z / 146097
  let doe := z % 146097
  let yoe := (doe - doe / 1460 + doe / 36524 - doe / 146096) / 365
  let y := yoe + era * 400
  let doy := doe - (365 * yoe + yoe / 4 - yoe / 100)
  let mp := (5 * doy + 2) / 153
  let dom := doy - (153 * mp + 2) / 5 + 1
  let m := if mp < 10 then mp + 3 else mp - 9
  (if m ≤ 2 then y + 1 else y, m, dom)

/-- Day count since the epoch of a Gregorian date (inverse of `civilFromDays`);
only evaluated at January 1 of years ≥ 1970 here. -/
def daysFromCivil (y m dom : Nat) : Nat :=
  let yAdj := if m ≤ 2 then y - 1 else y
  let era := yAdj / 400
  let yoe := yAdj % 400
  let doy := (153 * (if 2 < m then m - 3 else m + 9) + 2) / 5 + dom - 1
  let doe := yoe * 365 + yoe / 4 - yoe / 100 + doy
  era * 146097 + doe - 719468

def yearOf (ts : Nat) : Nat := (civilFromDays (ts / 86400)).1

/-- dayjs `.month()` is 0-based (December = 11). -/
def monthIdxOf (ts : Nat) : Nat := (civilFromDays (ts / 86400)).2.1 - 1

def dayOfMonthOf (ts : Nat) : Nat := (civilFromDays (ts / 86400)).2.2

/-- 0 = Sunday; 1970-01-01 was a Thursday. -/
def dayOfWeekOf (ts : Nat) : Nat := (ts / 86400 + 4) % 7

/-- `dayjs.utc(ts).startOf('week')` in unix seconds: weeks start on Sunday in
the default `en` locale. -/
def startOfWeekTs (ts : Nat) : Nat :=
  ts / 86400 * 86400 - dayOfWeekOf ts * 86400

/-- unix seconds of 00:00 UTC on January 1 of year `y`. -/
def startOfYearTs (y : Nat) : Nat := daysFromCivil y 1 1 * 86400

/-- The `weekOfYear` dayjs plugin (`.week()`) specialized to UTC instances and
the default `en` locale (`yearStart = 1`, weeks start on Sunday), which is how
`getChartData` calls it (`dayjs.utc(dayjs.unix(data[i].date)).week()`).
For a date after December 25 whose Sunday-based week already contains January 1
of the next year the plugin returns 1 (`nextYearStartDay.isBefore(thisEndOfWeek)`
compared at millisecond precision; `endOf('week')` is the last millisecond of
Saturday).  Otherwise it returns `Math.ceil` of the difference to the start of
the week containing January 1, measured in weeks; for timestamps lying in year
`y` that difference is never negative (the plugin's `diffInWeek < 0` branch is
unreachable), and its ceiling is the ceiling division below (604800 seconds per
week; the plugin's float arithmetic on these magnitudes is exact). -/
def dayjsWeek (ts : Nat) : Nat :=
  let y := yearOf ts
  if monthIdxOf ts = 11 ∧ 25 < dayOfMonthOf ts ∧
      startOfYearTs (y + 1) * 1000 < (startOfWeekTs ts + 7 * 86400) * 1000 - 1 then 1
  else
    let yearStartWeek := startOfWeekTs (startOfYearTs y)
    (ts - yearStartWeek + 604799) / 604800

/-- One `weeklyData[startIndexWeekly]` bucket (`date`, `weeklyVolumeUSD`). -/
structure WeeklyEntry where
  date : Nat
  weeklyVolumeUSD : ℚ
deriving DecidableEq

/-- The weekly re-aggregation `data.forEach` of `getChartData` (GlobalData.tsx
lines 467-488), with the offset adjustment already applied to the daily series
(see `getChartDataProcess`): `currentWeek` starts at `-1`; whenever the
computed `.week()` differs from `currentWeek` a new bucket is started
(`startIndexWeekly++`), otherwise the current bucket's `date` is overwritten
with the day's date and the day's volume is added to its `weeklyVolumeUSD`. -/
def weeklyAggAux {μ : Type} : List (GDay μ) → Int → Option WeeklyEntry → List WeeklyEntry
  | [], _, cur => cur.toList
  | d :: rest, currentWeek, cur =>
    let wk : Int := dayjsWeek d.date
    if wk ≠ currentWeek then
      cur.toList ++ weeklyAggAux rest wk (some ⟨d.date, d.dailyVolumeUSD⟩)
    else
      weeklyAggAux rest currentWeek
        (cur.map fun b => ⟨d.date, b.weeklyVolumeUSD + d.dailyVolumeUSD⟩)

def weeklyAgg {μ : Type} (days : List (GDay μ)) : List WeeklyEntry :=
  weeklyAggAux days (-1) none

/-- The post-fetch processing of `getChartData` (GlobalData.tsx lines 424-496):
`inp` is the concatenation of the fetched `ubeswapDayDatas` pages (ordered
ascending by date by the query) and `E = utcEndTime.unix()`.  On empty data the
read of `data[0].date` throws, the `catch` logs it, and the untouched
`[data, weeklyData] = [[], []]` pair is returned.  Otherwise missing days are
synthesized (volume 0, carried `totalLiquidityUSD` / `mostLiquidTokens`,
starting from `data[0]` with `index = 1`), the series is sorted by date, the
offset adjustment is applied to each day (the source mutates
`data[i].dailyVolumeUSD` inside the weekly `forEach` before using it), and the
weekly buckets are aggregated from the adjusted days. -/
def getChartDataProcess {μ : Type} (inp : List (GDay μ)) (oldestDateToFetch E : Nat)
    (offsetData : List Offset) : List (GDay μ) × List WeeklyEntry :=
  match inp with
  | [] => ([], [])
  | d0 :: _ =>
    let dayIndexSet := inp.map fun d => dayIndexJS d.date
    let ts0 := if d0.date ≠ 0 then d0.date else oldestDateToFetch
    let filled := inp ++ fillEmptyLoop
      (fun d => (d.totalLiquidityUSD, d.mostLiquidTokens))
      (fun nextDay st => ⟨nextDay, 0, st.1, st.2⟩)
      dayIndexSet inp E ts0 (d0.totalLiquidityUSD, d0.mostLiquidTokens) 1
    let sorted := sortByKey GDay.date filled
    let adjusted := sorted.map fun d =>
      { d with dailyVolumeUSD := applyOffsets offsetData d.date d.dailyVolumeUSD }
    (adjusted, weeklyAgg adjusted)

/-- The post-fetch processing of `getPairChartData` (lines 383-449 of the pair
data context): `inp` is the concatenation of the fetched `pairDayDatas` pages,
`startTime` is `utcStartTime.unix() - 1` and `E = utcEndTime.unix()`.  The gap
fill runs only `if (data[0])`; either way the series is then sorted by date.
Synthesized entries get a `dayString`, daily volume 0 and the carried
`reserveUSD`. -/
def getPairChartDataProcess (inp : List PDay) (startTime E : Nat) : List PDay :=
  let dayIndexSet := inp.map fun d => dayIndexJS d.date
  let filled :=
    match inp with
    | [] => inp
    | d0 :: _ =>
      let ts0 := if d0.date ≠ 0 then d0.date else startTime
      inp ++ fillEmptyLoop (fun d => d.reserveUSD)
        (fun nextDay st => ⟨nextDay, some nextDay, 0, st⟩)
        dayIndexSet inp E ts0 d0.reserveUSD 1
  sortByKey PDay.date filled

/-- The `PairFields` fragment columns consumed by `parseData`/`getBulkPairData`
(string-encoded decimals as `ℚ`).  `createdAtBlockNumber` is read by
`parseData` (the fetched fragment actually carries `createdAtTimestamp`; a
missing value would make `toInt` return 0, which only weakens the first,
subsumed override). -/
structure PairFields where
  id : String
  reserveUSD : ℚ
  trackedReserveUSD : ℚ
  volumeUSD : ℚ
  untrackedVolumeUSD : ℚ
  createdAtBlockNumber : Nat
deriving DecidableEq

/-- Modelled from the spec: `get2DayPercentChange` lives in `src/utils`, which
is absent from the source tree.  Following §4.3 step 5 and the glossary: the
one-day delta is `current − previous` (absent previous values enter as the
substituted `'0'`), and the two-point percent change is
`((currentChange − previousChange) / previousChange) × 100`, a zero previous
change being treated as not computable (0). -/
def get2DayPercentChange (valueNow value24HoursAgo value48HoursAgo : ℚ) : ℚ × ℚ :=
  let currentChange := valueNow - value24HoursAgo
  let previousChange := value24HoursAgo - value48HoursAgo
  (currentChange,
    if previousChange = 0 then 0
    else (currentChange - previousChange) / previousChange * 100)

/-- Modelled from the spec: `getPercentChange` (`src/utils`, absent from the
source tree) is the glossary's two-point percent change
`((current − previous) / previous) × 100` with a zero (or absent) previous
value treated as not computable (0). -/
def getPercentChange (valueNow value24HoursAgo : ℚ) : ℚ :=
  if value24HoursAgo = 0 then 0
  else (valueNow - value24HoursAgo) / value24HoursAgo * 100

/-- The derived metrics bundle `parseData` returns
(`{ ...data, ...otherProperties }`); the untouched snapshot fields are kept in
`base`.  `updateNameData` only rewrites token display names, which are outside
the modelled fields. -/
structure PairBundle where
  base : PairFields
  oneDayVolumeUSD : ℚ
  oneWeekVolumeUSD : ℚ
  volumeChangeUSD : ℚ
  oneDayVolumeUntracked : ℚ
  oneWeekVolumeUntracked : ℚ
  volumeChangeUntracked : ℚ
  trackedReserveUSD : ℚ
  liquidityChangeUSD : ℚ
deriving DecidableEq

/-- `parseData` (pair data context, lines 301-357): derives volume deltas and
percent changes from the current snapshot plus up to three historical ones,
then applies the `format if pair hasnt existed for a day or a week` overrides
(lines 342-351).  Note that the second override, `if (!oneDayData && data)`,
subsumes the creation-block-guarded first one. -/
def parseData (data : PairFields) (oneDayData twoDayData oneWeekData : Option PairFields)
    (oneDayBlock : Nat) : PairBundle :=
  let p := get2DayPercentChange data.volumeUSD
    (match oneDayData with | some h => h.volumeUSD | none => 0)
    (match twoDayData with | some h => h.volumeUSD | none => 0)
  let pu := get2DayPercentChange data.untrackedVolumeUSD
    (match oneDayData with | some h => h.untrackedVolumeUSD | none => 0)
    (match twoDayData with | some h => h.untrackedVolumeUSD | none => 0)
  let oneWeekVolumeUSD := match oneWeekData with
    | some w => data.volumeUSD - w.volumeUSD
    | none => data.volumeUSD
  let oneWeekVolumeUntracked := match oneWeekData with
    | some w => data.untrackedVolumeUSD - w.untrackedVolumeUSD
    | none => data.untrackedVolumeUSD
  let v1 := if oneDayData = none ∧ data.createdAtBlockNumber > oneDayBlock
    then data.volumeUSD else p.1
  let v2 := if oneDayData = none then data.volumeUSD else v1
  let w2 := if oneWeekData = none then data.volumeUSD else oneWeekVolumeUSD
  { base := data
    oneDayVolumeUSD := v2
    oneWeekVolumeUSD := w2
    volumeChangeUSD := p.2
    oneDayVolumeUntracked := pu.1
    oneWeekVolumeUntracked := oneWeekVolumeUntracked
    volumeChangeUntracked := pu.2
    trackedReserveUSD := data.trackedReserveUSD
    liquidityChangeUSD := getPercentChange data.reserveUSD
      (match oneDayData with | some h => h.reserveUSD | none => 0) }

/-- One resolved block reference (`{ number }`). -/
structure BlockRef where
  number : Nat
deriving DecidableEq

/-- The network environment of `getBulkPairData`: the awaited results of the
timestamp-to-block resolution (`getBlocksFromTimestamps([t1, t2, tWeek])`), of
the `PAIRS_BULK` current query, of the `PAIRS_HISTORICAL_BULK` queries (per
block number) and of the per-pair `PAIR_DATA` fallback queries.
`Except.error` is a rejected promise or a thrown property read (a response
whose `data` is missing under `errorPolicy: ignore` throws at the read site). -/
structure BulkEnv where
  blocks : Except Unit (List BlockRef)
  current : List String → Except Unit (List PairFields)
  hist : Nat → List String → Except Unit (List PairFields)
  pairData : String → Nat → Except Unit (List PairFields)

/-- `data.pairs ?? []` with the surrounding `try { } catch { return [] }`
(lines 207-225): a failed historical bulk query degrades to the empty list. -/
def histOrEmpty (e : Except Unit (List PairFields)) : List PairFields :=
  match e with
  | .ok l => l
  | .error _ => []

/-- The `oneDayData?.[pair.id]` lookup into the object built by
`result.reduce((obj, cur) => ({ ...obj, [cur.id]: cur }), {})`: the last entry
with the id wins. -/
def lookupPair (l : List PairFields) (pid : String) : Option PairFields :=
  (l.filter fun p => p.id == pid).getLast?

/-- The history resolution inside the `Promise.all` map body:
`let oneDayHistory = oneDayData?.[pair.id]; if (!oneDayHistory) { ... PAIR_DATA
fallback ... }`, the fallback taking `newData.data.pairs[0]` and a caught
failure leaving the history absent. -/
def assembleHistory (env : BulkEnv) (result : List PairFields) (pid : String)
    (b : Nat) : Option PairFields :=
  match lookupPair result pid with
  | some h => some h
  | none =>
    match env.pairData pid b with
    | .ok l => l.head?
    | .error _ => none

/-- One iteration of the `Promise.all(pairList.map(...))` body of
`getBulkPairData`: resolve the three histories and hand them to `parseData`. -/
def assemblePair (env : BulkEnv) (pairList : List String) (b1 b2 bWeek : Nat)
    (pair : PairFields) : PairBundle :=
  parseData pair
    (assembleHistory env (histOrEmpty (env.hist b1 pairList)) pair.id b1)
    (assembleHistory env (histOrEmpty (env.hist b2 pairList)) pair.id b2)
    (assembleHistory env (histOrEmpty (env.hist bWeek pairList)) pair.id bWeek)
    b1

/-- `getBulkPairData` (lines 193-299).  The destructuring
`const [{number: b1}, {number: b2}, {number: bWeek}] = await getBlocksFromTimestamps([t1, t2, tWeek])`
happens outside the `try` block, so a rejected resolution — or a resolved list
with fewer than three entries, whose destructuring throws a `TypeError` —
propagates to the caller (`Except.error`).  Every later failure is caught: the
outer catch turns a failed current query into `undefined` (`Except.ok none`),
failed historical bulk queries become `[]`, and failed per-pair fallbacks
leave that period's history absent. -/
def getBulkPairData (env : BulkEnv) (pairList : List String) :
    Except Unit (Option (List PairBundle)) :=
  match env.blocks with
  | .error _ => .error ()
  | .ok bs =>
    match bs with
    | b1 :: b2 :: bWeek :: _ =>
      match env.current pairList with
      | .error _ => .ok none
      | .ok pairs =>
        .ok (some (pairs.map (assemblePair env pairList b1.number b2.number bWeek.number)))
    | _ => .error ()

/-- Environment exhibiting the C2 counterexample: the block resolution step
rejects; everything else would succeed. -/
def envC2 : BulkEnv :=
  { blocks := .error ()
    current := fun _ => .ok []
    hist := fun _ _ => .ok []
    pairData := fun _ _ => .ok [] }

/-- A block of the blocks subgraph: `{ number, timestamp }`. -/
structure ChainBlock where
  number : Nat
  timestamp : Nat
deriving DecidableEq

/-- The `where: { timestamp_gt: lo, timestamp_lt: hi }` filter of the blocks
subgraph: the blocks strictly inside the window, in store order. -/
def blocksWhere (chain : List ChainBlock) (lo hi : Nat) : List ChainBlock :=
  chain.filter fun b => decide (lo < b.timestamp ∧ b.timestamp < hi)

/-- `GET_BLOCK` (lines 22-35): `blocks(first: 1, orderBy: timestamp,
orderDirection: asc, where: { timestamp_gt, timestamp_lt })` — the first block
strictly between the two bounds when sorted ascending by timestamp. -/
def GET_BLOCK_run (chain : List ChainBlock) (timestampFrom timestampTo : Nat) :
    Option ChainBlock :=
  (sortByKey (fun b => b.timestamp) (blocksWhere chain timestampFrom timestampTo)).head?

/-- One `t<timestamp>:blocks(...)` aliased sub-query of `GET_BLOCKS`
(lines 37-48): `first: 1, orderBy: timestamp, orderDirection: desc` over the
window `(timestamp, timestamp + 600)` — the direction is descending. -/
def GET_BLOCKS_sub (chain : List ChainBlock) (timestamp : Nat) : Option ChainBlock :=
  ((sortByKey (fun b => b.timestamp)
      (blocksWhere chain timestamp (timestamp + 600))).reverse).head?

/-- Modelled from the spec: `getBlocksFromTimestamps` lives in `src/utils`,
which is absent from the source tree.  Per the resolver contract it issues one
`GET_BLOCKS` sub-query per timestamp (through the Query Batcher) and returns
the resolved references in input order, one per timestamp. -/
def getBlocksFromTimestamps (chain : List ChainBlock) (timestamps : List Nat) :
    List (Option ChainBlock) :=
  timestamps.map (GET_BLOCKS_sub chain)

/-- `const PAIRS_TO_FETCH = 500` (GlobalData.tsx line 586). -/
def PAIRS_TO_FETCH : Nat := 500

/-- `const TOKENS_TO_FETCH = 500` (GlobalData.tsx line 587). -/
def TOKENS_TO_FETCH : Nat := 500

/-- The shared `while (!allFound)` pagination body of `getAllPairsOnUbeswap`
(lines 592-615) and `getAllTokensOnUbeswap` (lines 620-644), with the data
source as `pages : skip ↦ returned page`.  Each iteration fetches the page at
the current skip, appends it, and stops when the page is shorter than the page
size OR the accumulated list is longer than the page size; otherwise the skip
advances by the page size.  (The two functions only differ in whether the skip
is advanced before or after the stop check, which does not change what is
fetched or returned.)  `fuel` bounds the number of iterations of the JS
`while` loop. -/
def paginateLoopF {α : Type} (N : Nat) (pages : Nat → List α) :
    Nat → Nat → List α → List α
  | 0, _, acc => acc
  | fuel + 1, skip, acc =>
    let page := pages skip
    let acc2 := acc ++ page
    if page.length < N ∨ N < acc2.length then acc2
    else paginateLoopF N pages fuel (skip + N) acc2

/-- `getAllPairsOnUbeswap` (lines 592-615): paginate `ALL_PAIRS` with page
size `PAIRS_TO_FETCH` starting at skip 0 with an empty accumulator. -/
def getAllPairsOnUbeswap {α : Type} (pages : Nat → List α) (fuel : Nat) : List α :=
  paginateLoopF PAIRS_TO_FETCH pages fuel 0 []

/-- `getAllTokensOnUbeswap` (lines 620-644): paginate `ALL_TOKENS` with page
size `TOKENS_TO_FETCH` starting at skip 0 with an empty accumulator. -/
def getAllTokensOnUbeswap {α : Type} (pages : Nat → List α) (fuel : Nat) : List α :=
  paginateLoopF TOKENS_TO_FETCH pages fuel 0 []

/-- The fields of an `allPairs[id]` entry read by `useTopLps`. -/
structure PairInfo where
  reserveUSD : ℚ
  totalSupply : ℚ
  token0Symbol : String
  token1Symbol : String
  token0Id : String
  token1Id : String
deriving DecidableEq

/-- One `liquidityPositions` entry of a `TOP_LPS_PER_PAIRS` response. -/
structure LiquidityPosition where
  user : String
  pairId : String
  liquidityTokenBalance : ℚ
deriving DecidableEq

/-- One formatted entry pushed onto `topLps` (GlobalData.tsx lines 809-820). -/
structure TopLp where
  user : String
  pairName : String
  pairAddress : String
  token0 : String
  token1 : String
  usd : ℚ
deriving DecidableEq

/-- The descending sort `(a, b) => (key a > key b ? -1 : 1)` used twice in
`useTopLps` (by `reserveUSD` over the pair keys, by `usd` over the merged
entries). -/
def sortByQDesc {α : Type} (key : α → ℚ) (l : List α) : List α :=
  @List.insertionSort α (fun a b => key b ≤ key a)
    (fun a b => inferInstanceAs (Decidable (key b ≤ key a))) l

/-- `topLps.push({...})` (lines 810-819): format one liquidity position with
its pair's metadata; the USD value is
`(liquidityTokenBalance / totalSupply) * reserveUSD`. -/
def mkTopLp (info : String → PairInfo) (e : LiquidityPosition) : TopLp :=
  { user := e.user
    pairName := (info e.pairId).token0Symbol ++ "-" ++ (info e.pairId).token1Symbol
    pairAddress := e.pairId
    token0 := (info e.pairId).token0Id
    token1 := (info e.pairId).token1Id
    usd := e.liquidityTokenBalance / (info e.pairId).totalSupply *
      (info e.pairId).reserveUSD }

/-- `Object.keys(allPairs).sort(by reserveUSD desc).slice(0, 99)`
(lines 780-783). -/
def topPairKeys (keys : List String) (info : String → PairInfo) : List String :=
  (sortByQDesc (fun k => (info k).reserveUSD) keys).take 99

/-- The body of `fetchData` in `useTopLps` (lines 777-826): one
`TOP_LPS_PER_PAIRS` query per top pair (`queries pid = none` models a caught
failure or missing `results`, filtered out by `.filter((i) => !!i)`), the
formatted entries merged in order, sorted by USD descending, and cut to the
first 100 by `splice(0, 100)`. -/
def useTopLpsFetch (keys : List String) (info : String → PairInfo)
    (queries : String → Option (List LiquidityPosition)) : List TopLp :=
  let topPairs := topPairKeys keys info
  let topLpLists := topPairs.filterMap queries
  let topLps := topLpLists.flatMap (fun list => list.map (mkTopLp info))
  (sortByQDesc (fun t => t.usd) topLps).take 100

/-- Modelled from the spec: the Query Batcher (`splitQuery` in `src/utils`,
absent from the source tree) partitions the item list into consecutive chunks
of size `B`, the last chunk possibly shorter.  `fuel` bounds the recursion;
`items.length` iterations always suffice when `1 ≤ B`. -/
def chunkListF {α : Type} (B : Nat) : Nat → List α → List (List α)
  | 0, _ => []
  | _ + 1, [] => []
  | fuel + 1, a :: t => (a :: t).take B :: chunkListF B fuel ((a :: t).drop B)

/-- Modelled from the spec: the batcher's chunking of `items` into
`ceil(N / B)` batches. -/
def chunkList {α : Type} (B : Nat) (items : List α) : List (List α) :=
  chunkListF B items.length items

/-- Modelled from the spec: one Query Batcher run.  Each item of a chunk
becomes one aliased sub-query of that chunk's combined document; `q` gives the
payload the data source answers for an item's alias, and the per-batch
responses are merged in order into one alias-to-payload mapping. -/
def queryBatcherRun {α β : Type} (q : α → β) (B : Nat) (items : List α) :
    List (α × β) :=
  (chunkList B items).flatMap (fun chunk => chunk.map (fun i => (i, q i)))

/-- Following the spec's words (for comparison only): the ISO week of a day,
as an absolute index of Monday-started weeks (1970-01-01 was a Thursday, so
day `d` lies in Monday-week `(d + 3) / 7`).  Two consecutive days lie in the
same ISO week exactly when this index agrees, which is all the ISO-week-
boundary counting below needs. -/
def isoWeekIndex (ts : Nat) : Nat := (ts / 86400 + 3) / 7

/-- The number of adjacent positions at which a list changes value: one fewer
than the number of maximal runs of equal elements (for a non-empty list). -/
def adjChanges {α : Type} [DecidableEq α] : List α → Nat
  | a :: b :: t => (if a = b then 0 else 1) + adjChanges (b :: t)
  | _ => 0

theorem oneDay_pos : 0 < oneDay := by decide

/-- On day-aligned timestamps `dayIndexJS` is plain division by `oneDay`. -/
theorem dayIndexJS_of_dvd {d : Nat} (h : oneDay ∣ d) : dayIndexJS d = d / oneDay := by
  obtain ⟨m, rfl⟩ := h
  simp only [dayIndexJS, oneDay]
  omega

/-- `dayIndexJS` is injective on day-aligned timestamps. -/
theorem dayIndexJS_inj {d d' : Nat} (h : oneDay ∣ d) (h' : oneDay ∣ d')
    (he : dayIndexJS d = dayIndexJS d') : d = d' := by
  obtain ⟨m, rfl⟩ := h
  obtain ⟨m', rfl⟩ := h'
  simp only [dayIndexJS, oneDay] at he ⊢
  omega

theorem sortByKey_perm {α : Type} (key : α → Nat) (l : List α) :
    List.Perm (sortByKey key l) l :=
  List.perm_insertionSort _ l

theorem sortByKey_sorted {α : Type} (key : α → Nat) (l : List α) :
    (sortByKey key l).Pairwise (fun a b => key a ≤ key b) :=
  @List.sorted_insertionSort α (fun a b => key a ≤ key b) (fun a b => Nat.decLe _ _)
    ⟨fun a b => Nat.le_total (key a) (key b)⟩
    ⟨fun _ _ _ h1 h2 => Nat.le_trans h1 h2⟩ l

/-- Each loop iteration advances `timestamp` by `oneDay ≥ 1`, so the loop runs
at most `E - oneDay - ts` iterations: past that bound the result no longer
depends on the fuel, i.e. `fillEmptyLoopF` with ample fuel is exactly the
result of the unbounded JS loop. -/
theorem fillEmptyLoopF_stable {α β : Type} (carry : α → β) (mk : Nat → β → α)
    (dSet : List Nat) (arr : List α) (E : Nat) :
    ∀ f1 f2 ts st idx, E - oneDay - ts < f1 → E - oneDay - ts < f2 →
      fillEmptyLoopF carry mk dSet arr E f1 ts st idx =
        fillEmptyLoopF carry mk dSet arr E f2 ts st idx := by
  have hod := oneDay_pos
  intro f1
  induction f1 with
  | zero => intro f2 ts st idx h1 _; omega
  | succ f1 ih =>
    intro f2 ts st idx h1 h2
    match f2 with
    | 0 => omega
    | f2 + 1 =>
      simp only [fillEmptyLoopF]
      by_cases hlt : ts < E - oneDay
      · simp only [hlt, if_pos]
        by_cases hmem : dayIndexJS (ts + oneDay) ∈ dSet
        · simp only [hmem, if_pos]
          exact ih f2 (ts + oneDay) _ _ (by omega) (by omega)
        · simp only [hmem, if_neg, not_false_iff]
          exact congrArg _ (ih f2 (ts + oneDay) _ _ (by omega) (by omega))
      · simp [hlt]

theorem fillEmptyLoopF_map_key {α β : Type} (key : α → Nat) (carry : α → β)
    (mk : Nat → β → α) (hmk : ∀ d b, key (mk d b) = d)
    (dSet : List Nat) (arr : List α) (E : Nat) :
    ∀ fuel ts st idx,
      (fillEmptyLoopF carry mk dSet arr E fuel ts st idx).map key =
        fillDatesF dSet E fuel ts := by
  intro fuel
  induction fuel with
  | zero => intro ts st idx; rfl
  | succ fuel ih =>
    intro ts st idx
    simp only [fillEmptyLoopF, fillDatesF]
    by_cases hlt : ts < E - oneDay
    · simp only [hlt, if_pos]
      by_cases hmem : dayIndexJS (ts + oneDay) ∈ dSet
      · simp only [hmem, if_pos]
        exact ih _ _ _
      · simp only [hmem, if_neg, not_false_iff, List.map_cons, hmk]
        exact congrArg _ (ih _ _ _)
    · simp [hlt]

theorem fillEmptyLoop_map_key {α β : Type} (key : α → Nat) (carry : α → β)
    (mk : Nat → β → α) (hmk : ∀ d b, key (mk d b) = d)
    (dSet : List Nat) (arr : List α) (E ts : Nat) (st : β) (idx : Nat) :
    (fillEmptyLoop carry mk dSet arr E ts st idx).map key = fillDates dSet E ts :=
  fillEmptyLoopF_map_key key carry mk hmk dSet arr E _ ts st idx

/-- The walk visits exactly the days `ts + oneDay, ts + 2 * oneDay, …` whose
predecessor still satisfied the loop condition, and pushes those whose day
index is missing from the set. -/
theorem fillDatesF_mem_iff (dSet : List Nat) (E : Nat) :
    ∀ fuel ts, E - oneDay - ts < fuel →
      ∀ d, d ∈ fillDatesF dSet E fuel ts ↔
        ∃ j, d = ts + oneDay * (j + 1) ∧ ts + oneDay * j < E - oneDay ∧
          dayIndexJS d ∉ dSet := by
  have hod := oneDay_pos
  intro fuel
  induction fuel with
  | zero => intro ts hf; omega
  | succ fuel ih =>
    intro ts hf d
    simp only [fillDatesF]
    by_cases hlt : ts < E - oneDay
    · have hrec := ih (ts + oneDay) (by omega) d
      by_cases hmem : dayIndexJS (ts + oneDay) ∈ dSet
      · simp only [hlt, if_pos, hmem, hrec]
        constructor
        · rintro ⟨j, rfl, hc, hni⟩
          exact ⟨j + 1, by simp only [oneDay] at *; try omega,
            by simp only [oneDay] at *; try omega, hni⟩
        · rintro ⟨j, rfl, hc, hni⟩
          match j with
          | 0 =>
            exact absurd (by simpa using hmem) (by simpa using hni)
          | j + 1 =>
            exact ⟨j, by simp only [oneDay] at *; try omega,
              by simp only [oneDay] at *; try omega, hni⟩
      · simp only [hlt, if_pos, hmem, if_neg, not_false_iff, List.mem_cons, hrec]
        constructor
        · rintro (rfl | ⟨j, rfl, hc, hni⟩)
          · exact ⟨0, by simp only [oneDay] at *; try omega,
              by simp only [oneDay] at *; try omega, hmem⟩
          · exact ⟨j + 1, by simp only [oneDay] at *; try omega,
              by simp only [oneDay] at *; try omega, hni⟩
        · rintro ⟨j, rfl, hc, hni⟩
          match j with
          | 0 => exact Or.inl (by simp only [oneDay] at *; try omega)
          | j + 1 =>
            exact Or.inr ⟨j, by simp only [oneDay] at *; try omega,
              by simp only [oneDay] at *; try omega, hni⟩
    · simp only [hlt, if_neg, not_false_iff, List.not_mem_nil, false_iff]
      rintro ⟨j, rfl, hc, _⟩
      simp only [oneDay] at *
      omega

theorem fillDates_mem_iff (dSet : List Nat) (E ts : Nat) (d : Nat) :
    d ∈ fillDates dSet E ts ↔
      ∃ j, d = ts + oneDay * (j + 1) ∧ ts + oneDay * j < E - oneDay ∧
        dayIndexJS d ∉ dSet :=
  fillDatesF_mem_iff dSet E _ ts (Nat.lt_succ_self _) d

theorem fillDatesF_lt (dSet : List Nat) (E : Nat) :
    ∀ fuel ts, ∀ d ∈ fillDatesF dSet E fuel ts, ts < d := by
  have hod := oneDay_pos
  intro fuel
  induction fuel with
  | zero => intro ts d hd; simp [fillDatesF] at hd
  | succ fuel ih =>
    intro ts d hd
    simp only [fillDatesF] at hd
    by_cases hlt : ts < E - oneDay
    · simp only [hlt, if_pos] at hd
      by_cases hmem : dayIndexJS (ts + oneDay) ∈ dSet
      · simp only [hmem, if_pos] at hd
        have := ih (ts + oneDay) d hd
        omega
      · simp only [hmem, if_neg, not_false_iff, List.mem_cons] at hd
        rcases hd with rfl | hd
        · omega
        · have := ih (ts + oneDay) d hd
          omega
    · simp [hlt] at hd

theorem fillDatesF_pairwise (dSet : List Nat) (E : Nat) :
    ∀ fuel ts, (fillDatesF dSet E fuel ts).Pairwise (· < ·) := by
  intro fuel
  induction fuel with
  | zero => intro ts; simp [fillDatesF]
  | succ fuel ih =>
    intro ts
    simp only [fillDatesF]
    by_cases hlt : ts < E - oneDay
    · simp only [hlt, if_pos]
      by_cases hmem : dayIndexJS (ts + oneDay) ∈ dSet
      · simp only [hmem, if_pos]
        exact ih (ts + oneDay)
      · simp only [hmem, if_neg, not_false_iff]
        exact (ih (ts + oneDay)).cons
          (fun d hd => fillDatesF_lt dSet E fuel (ts + oneDay) d hd)
    · simp [hlt]

theorem fillDates_pairwise (dSet : List Nat) (E ts : Nat) :
    (fillDates dSet E ts).Pairwise (· < ·) :=
  fillDatesF_pairwise dSet E _ ts

theorem fillDates_nodup (dSet : List Nat) (E ts : Nat) :
    (fillDates dSet E ts).Nodup :=
  (fillDates_pairwise dSet E ts).imp Nat.ne_of_lt

/-- Date multiset of the gap-filled series: for day-aligned, strictly sorted
input dates, every day bucket from the first input date up to the last one
the walk reaches occurs exactly once in `input dates ++ synthesized dates`. -/
theorem filled_dates_count (ds : List Nat) (d0 : Nat) (tl : List Nat)
    (hcons : ds = d0 :: tl)
    (hsort : ds.Pairwise (· < ·))
    (hdiv : ∀ x ∈ ds, oneDay ∣ x)
    (E : Nat) :
    ∀ d, oneDay ∣ d → d0 ≤ d → d + oneDay ≤ E →
      (ds ++ fillDates (ds.map dayIndexJS) E d0).count d = 1 := by
  have hod := oneDay_pos
  intro d hdvd hd0 hE
  have hnodup : ds.Nodup := hsort.imp Nat.ne_of_lt
  rw [List.count_append]
  by_cases hds : d ∈ ds
  · -- an observed day: once in the input, never synthesized
    have h1 : ds.count d = 1 := List.count_eq_one_of_mem hnodup hds
    have h2 : d ∉ fillDates (ds.map dayIndexJS) E d0 := by
      intro hmem
      rw [fillDates_mem_iff] at hmem
      obtain ⟨j, _, _, hni⟩ := hmem
      exact hni (List.mem_map_of_mem dayIndexJS hds)
    rw [h1, List.count_eq_zero.mpr h2]
  · -- a missing day: synthesized exactly once
    have h1 : ds.count d = 0 := List.count_eq_zero.mpr hds
    have hd0ds : d0 ∈ ds := by rw [hcons]; exact List.mem_cons_self _ _
    have hmem : d ∈ fillDates (ds.map dayIndexJS) E d0 := by
      rw [fillDates_mem_iff]
      obtain ⟨m0, hm0⟩ := hdiv d0 hd0ds
      have hdvd2 := hdvd
      obtain ⟨md, hmd⟩ := hdvd2
      have hne : d ≠ d0 := fun h => hds (h ▸ hd0ds)
      refine ⟨md - m0 - 1, ?_, ?_, ?_⟩
      · simp only [oneDay] at *; omega
      · simp only [oneDay] at *; omega
      · intro hin
        rw [List.mem_map] at hin
        obtain ⟨x, hx, hxe⟩ := hin
        exact hds (dayIndexJS_inj (hdiv x hx) hdvd hxe ▸ hx)
    rw [h1, List.count_eq_one_of_mem (fillDates_nodup _ _ _) hmem]

/-- The input dates and the synthesized dates are disjoint, so the gap-filled
series has no duplicate dates. -/
theorem filled_dates_nodup (ds : List Nat) (d0 : Nat)
    (hsort : ds.Pairwise (· < ·))
    (hdiv : ∀ x ∈ ds, oneDay ∣ x)
    (E : Nat) :
    (ds ++ fillDates (ds.map dayIndexJS) E d0).Nodup := by
  rw [List.nodup_append]
  refine ⟨hsort.imp Nat.ne_of_lt, fillDates_nodup _ _ _, ?_⟩
  intro x hx hx'
  rw [fillDates_mem_iff] at hx'
  obtain ⟨j, _, _, hni⟩ := hx'
  exact hni (List.mem_map_of_mem dayIndexJS hx)

/-- Shared date-bucket correctness of the sorted gap-filled series, for both
chart functions: every day-aligned bucket from the first input date up to one
bucket before `E` occurs exactly once, and the dates are strictly increasing. -/
theorem gapfill_dates_spec {α β : Type} (key : α → Nat) (carry : α → β)
    (mk : Nat → β → α) (hmk : ∀ d b, key (mk d b) = d)
    (inp : List α) (a0 : α) (tl : List α) (hcons : inp = a0 :: tl)
    (hsort : (inp.map key).Pairwise (· < ·))
    (hdiv : ∀ x ∈ inp, oneDay ∣ key x)
    (E : Nat) (st : β) :
    (∀ d, oneDay ∣ d → key a0 ≤ d → d + oneDay ≤ E →
      ((sortByKey key (inp ++ fillEmptyLoop carry mk
          (inp.map fun a => dayIndexJS (key a)) inp E (key a0) st 1)).map key).count d = 1) ∧
    ((sortByKey key (inp ++ fillEmptyLoop carry mk
        (inp.map fun a => dayIndexJS (key a)) inp E (key a0) st 1)).map key).Pairwise (· < ·) := by
  have hds : (inp.map fun a => dayIndexJS (key a)) = (inp.map key).map dayIndexJS := by
    rw [List.map_map]; rfl
  have hmap : ((inp ++ fillEmptyLoop carry mk
      (inp.map fun a => dayIndexJS (key a)) inp E (key a0) st 1).map key) =
      (inp.map key) ++ fillDates ((inp.map key).map dayIndexJS) E (key a0) := by
    rw [List.map_append, fillEmptyLoop_map_key key carry mk hmk, hds]
  have hperm : List.Perm
      ((sortByKey key (inp ++ fillEmptyLoop carry mk
        (inp.map fun a => dayIndexJS (key a)) inp E (key a0) st 1)).map key)
      ((inp ++ fillEmptyLoop carry mk
        (inp.map fun a => dayIndexJS (key a)) inp E (key a0) st 1).map key) :=
    (sortByKey_perm key _).map key
  have hdiv' : ∀ x ∈ inp.map key, oneDay ∣ x := by
    intro x hx
    obtain ⟨a, ha, rfl⟩ := List.mem_map.mp hx
    exact hdiv a ha
  constructor
  · intro d hdvd hle hE
    rw [hperm.count_eq, hmap]
    exact filled_dates_count (inp.map key) (key a0) (tl.map key)
      (by rw [hcons]; simp) hsort hdiv' E d hdvd hle hE
  · have hle : ((sortByKey key (inp ++ fillEmptyLoop carry mk
        (inp.map fun a => dayIndexJS (key a)) inp E (key a0) st 1)).map key).Pairwise
        (· ≤ ·) := by
      rw [List.pairwise_map]
      exact sortByKey_sorted key _
    have hnd : ((sortByKey key (inp ++ fillEmptyLoop carry mk
        (inp.map fun a => dayIndexJS (key a)) inp E (key a0) st 1)).map key).Nodup := by
      rw [hperm.nodup_iff, hmap]
      exact filled_dates_nodup (inp.map key) (key a0) hsort hdiv' E
    exact (hle.and hnd).imp fun h => lt_of_le_of_ne h.1 h.2

/-- C1: For every daily time series produced by the chart gap-filler (global
`getChartData` and per-pair `getPairChartData`) over non-empty, day-aligned,
strictly date-sorted fetched data, the returned series contains every date
bucket in the range from the first observed date to one bucket before the
current time (`E = utcEndTime.unix()`) exactly once, and the series is sorted
in strictly increasing date order. -/
theorem C1_gapfilled_series_buckets_once_sorted {μ : Type}
    (inp : List (GDay μ)) (pinp : List PDay) (oldest startT E : Nat)
    (offs : List Offset)
    (g0 : GDay μ) (hg : inp.head? = some g0) (hg0 : g0.date ≠ 0)
    (hsort : (inp.map GDay.date).Pairwise (· < ·))
    (hdiv : ∀ x ∈ inp, oneDay ∣ x.date)
    (p0 : PDay) (hp : pinp.head? = some p0) (hp0 : p0.date ≠ 0)
    (hpsort : (pinp.map PDay.date).Pairwise (· < ·))
    (hpdiv : ∀ x ∈ pinp, oneDay ∣ x.date) :
    ((∀ d, oneDay ∣ d → g0.date ≤ d → d + oneDay ≤ E →
        ((getChartDataProcess inp oldest E offs).1.map GDay.date).count d = 1) ∧
      ((getChartDataProcess inp oldest E offs).1.map GDay.date).Pairwise (· < ·)) ∧
    ((∀ d, oneDay ∣ d → p0.date ≤ d → d + oneDay ≤ E →
        ((getPairChartDataProcess pinp startT E).map PDay.date).count d = 1) ∧
      ((getPairChartDataProcess pinp startT E).map PDay.date).Pairwise (· < ·)) := by
  constructor
  · obtain ⟨tl, rfl⟩ : ∃ tl, inp = g0 :: tl := by
      cases inp with
      | nil => simp at hg
      | cons a tl =>
        simp only [List.head?_cons, Option.some.injEq] at hg
        exact ⟨tl, by rw [hg]⟩
    have hmain := gapfill_dates_spec GDay.date
      (fun d => (d.totalLiquidityUSD, d.mostLiquidTokens))
      (fun nextDay st => ⟨nextDay, 0, st.1, st.2⟩) (fun _ _ => rfl)
      (g0 :: tl) g0 tl rfl hsort hdiv E (g0.totalLiquidityUSD, g0.mostLiquidTokens)
    simp only [getChartDataProcess]
    rw [if_pos hg0]
    have hadj : ∀ (l : List (GDay μ)),
        (l.map fun d =>
          { d with dailyVolumeUSD := applyOffsets offs d.date d.dailyVolumeUSD }).map
            GDay.date = l.map GDay.date := by
      intro l
      rw [List.map_map]
      rfl
    rw [hadj]
    exact hmain
  · obtain ⟨tl, rfl⟩ : ∃ tl, pinp = p0 :: tl := by
      cases pinp with
      | nil => simp at hp
      | cons a tl =>
        simp only [List.head?_cons, Option.some.injEq] at hp
        exact ⟨tl, by rw [hp]⟩
    have hmain := gapfill_dates_spec PDay.date (fun d => d.reserveUSD)
      (fun nextDay st => ⟨nextDay, some nextDay, 0, st⟩) (fun _ _ => rfl)
      (p0 :: tl) p0 tl rfl hpsort hpdiv E p0.reserveUSD
    simp only [getPairChartDataProcess]
    rw [if_pos hp0]
    exact hmain

/-- Witness for C1 at a concrete input: two fetched days with a two-day gap,
`E` one day after the last fetched day. -/
theorem C1_witness :
    (((getChartDataProcess [⟨86400, 10, 100, ()⟩, (⟨259200, 5, 50, ()⟩ : GDay Unit)]
        0 345600 []).1.map GDay.date).count 172800 = 1) ∧
    (((getChartDataProcess [⟨86400, 10, 100, ()⟩, (⟨259200, 5, 50, ()⟩ : GDay Unit)]
        0 345600 []).1.map GDay.date).Pairwise (· < ·)) ∧
    (((getPairChartDataProcess [⟨86400, none, 10, 100⟩, ⟨259200, none, 5, 50⟩]
        0 345600).map PDay.date).count 172800 = 1) ∧
    (((getPairChartDataProcess [⟨86400, none, 10, 100⟩, ⟨259200, none, 5, 50⟩]
        0 345600).map PDay.date).Pairwise (· < ·)) := by
  have h := C1_gapfilled_series_buckets_once_sorted
    [⟨86400, 10, 100, ()⟩, (⟨259200, 5, 50, ()⟩ : GDay Unit)]
    [⟨86400, none, 10, 100⟩, ⟨259200, none, 5, 50⟩]
    0 0 345600 []
    ⟨86400, 10, 100, ()⟩ rfl (by decide) (by decide) (by decide)
    ⟨86400, none, 10, 100⟩ rfl (by decide) (by decide) (by decide)
  exact ⟨h.1.1 172800 (by decide) (by decide) (by decide), h.1.2,
    h.2.1 172800 (by decide) (by decide) (by decide), h.2.2⟩

/-- In a strictly key-sorted list, the entries with key below a cutoff form a
prefix. -/
theorem filter_le_isPrefix {α : Type} (key : α → Nat) :
    ∀ (l : List α), (l.map key).Pairwise (· < ·) → ∀ c,
      ∃ t, l.filter (fun a => key a ≤ c) ++ t = l := by
  intro l
  induction l with
  | nil => intro _ c; exact ⟨[], rfl⟩
  | cons a l ih =>
    intro hs c
    rw [List.map_cons, List.pairwise_cons] at hs
    by_cases hc : key a ≤ c
    · obtain ⟨t, ht⟩ := ih hs.2 c
      refine ⟨t, ?_⟩
      rw [List.filter_cons_of_pos (by simpa using hc), List.cons_append, ht]
    · refine ⟨a :: l, ?_⟩
      rw [List.filter_cons_of_neg (by simpa using hc)]
      have hnil : l.filter (fun x => key x ≤ c) = [] := by
        rw [List.filter_eq_nil_iff]
        intro x hx
        have := hs.1 (key x) (List.mem_map_of_mem key hx)
        simp only [decide_eq_true_eq]
        omega
      rw [hnil, List.nil_append]

/-- Extending the cutoff of a sorted filter to the key of the least element
above it appends exactly that element. -/
theorem filter_le_step {α : Type} (key : α → Nat) :
    ∀ (l : List α), (l.map key).Pairwise (· < ·) →
      ∀ ts x, x ∈ l → ts < key x →
        (∀ a ∈ l, key a ≤ ts ∨ key x ≤ key a) →
        l.filter (fun a => key a ≤ key x) = l.filter (fun a => key a ≤ ts) ++ [x] := by
  intro l
  induction l with
  | nil => intro _ ts x hx; cases hx
  | cons a l ih =>
    intro hs ts x hx hts hgap
    rw [List.map_cons, List.pairwise_cons] at hs
    rw [List.mem_cons] at hx
    by_cases hc : key a ≤ ts
    · have hxl : x ∈ l := by
        rcases hx with rfl | hxl
        · omega
        · exact hxl
      simp only [List.filter_cons, decide_eq_true_eq]
      rw [if_pos (by omega : key a ≤ key x), if_pos hc, List.cons_append]
      exact congrArg _ (ih hs.2 ts x hxl hts
        (fun b hb => hgap b (List.mem_cons_of_mem a hb)))
    · rcases hx with rfl | hxl
      · -- the head is the element being appended
        simp only [List.filter_cons, decide_eq_true_eq]
        rw [if_pos (le_refl (key x)), if_neg hc]
        have h1 : l.filter (fun b => key b ≤ key x) = [] := by
          rw [List.filter_eq_nil_iff]
          intro b hb
          have := hs.1 (key b) (List.mem_map_of_mem key hb)
          simp only [decide_eq_true_eq]
          omega
        have h2 : l.filter (fun b => key b ≤ ts) = [] := by
          rw [List.filter_eq_nil_iff]
          intro b hb
          have := hs.1 (key b) (List.mem_map_of_mem key hb)
          simp only [decide_eq_true_eq]
          omega
        rw [h1, h2, List.nil_append]
      · have h1 := hs.1 (key x) (List.mem_map_of_mem key hxl)
        have h2 := hgap a (List.mem_cons_self a l)
        omega

/-- The entries with key at most the first key are exactly the head. -/
theorem filter_le_head {α : Type} (key : α → Nat) (a0 : α) (tl : List α)
    (hsort : ((a0 :: tl).map key).Pairwise (· < ·)) :
    (a0 :: tl).filter (fun a => key a ≤ key a0) = [a0] := by
  rw [List.map_cons, List.pairwise_cons] at hsort
  rw [List.filter_cons_of_pos (by simp)]
  have hnil : tl.filter (fun x => key x ≤ key a0) = [] := by
    rw [List.filter_eq_nil_iff]
    intro x hx
    have := hsort.1 (key x) (List.mem_map_of_mem key hx)
    simp only [decide_eq_true_eq]
    omega
  rw [hnil]

/-- Invariant of the gap-filling loop over strictly sorted, day-aligned input:
on entry `idx` counts the input entries with date at most `timestamp` and the
carried state is the payload of the last of them; hence every pushed record is
`mk` applied to its date and the payload of the last observed entry before
that date. -/
theorem fillEmptyLoopF_carry {α β : Type} (key : α → Nat) (carry : α → β)
    (mk : Nat → β → α)
    (inp : List α)
    (hsort : (inp.map key).Pairwise (· < ·))
    (hdiv : ∀ x ∈ inp, oneDay ∣ key x)
    (E : Nat) :
    ∀ fuel ts st idx,
      oneDay ∣ ts →
      idx = (inp.filter fun a => key a ≤ ts).length →
      ((inp.filter fun a => key a ≤ ts).getLast?).map carry = some st →
      ∀ r ∈ fillEmptyLoopF carry mk (inp.map fun a => dayIndexJS (key a)) inp E fuel ts st idx,
        ∃ d b, r = mk d b ∧
          ((inp.filter fun a => key a < d).getLast?).map carry = some b := by
  intro fuel
  induction fuel with
  | zero => intro ts st idx _ _ _ r hr; simp [fillEmptyLoopF] at hr
  | succ fuel ih =>
    intro ts st idx hts hidx hlast r hr
    simp only [fillEmptyLoopF] at hr
    by_cases hlt : ts < E - oneDay
    · simp only [hlt, if_pos] at hr
      by_cases hmem : dayIndexJS (ts + oneDay) ∈ (inp.map fun a => dayIndexJS (key a))
      · simp only [hmem, if_pos] at hr
        -- an observed entry sits exactly at the next day
        have hts' : oneDay ∣ ts + oneDay := dvd_add hts dvd_rfl
        obtain ⟨x, hxmem, hxkey⟩ : ∃ x ∈ inp, key x = ts + oneDay := by
          obtain ⟨x, hx, hxe⟩ := List.mem_map.mp hmem
          exact ⟨x, hx, dayIndexJS_inj (hdiv x hx) hts' hxe⟩
        have hgap : ∀ a ∈ inp, key a ≤ ts ∨ key x ≤ key a := by
          intro a ha
          obtain ⟨ma, hma⟩ := hdiv a ha
          obtain ⟨mt, hmt⟩ := hts
          rw [hxkey]
          simp only [oneDay] at *
          omega
        have hfilter : inp.filter (fun a => key a ≤ ts + oneDay) =
            inp.filter (fun a => key a ≤ ts) ++ [x] := by
          rw [← hxkey]
          exact filter_le_step key inp hsort ts x hxmem (hxkey ▸ Nat.lt_add_of_pos_right oneDay_pos) hgap
        obtain ⟨t, ht⟩ := filter_le_isPrefix key inp hsort (ts + oneDay)
        rw [hfilter] at ht
        have hgetx : inp[idx]? = some x := by
          rw [← ht, List.getElem?_append, if_pos (by simp [hidx]),
            List.getElem?_append, if_neg (by simp [hidx])]
          simp [hidx]
        have hidx' : idx + 1 = (inp.filter fun a => key a ≤ ts + oneDay).length := by
          rw [hfilter, List.length_append, ← hidx]
          rfl
        have hlast' : ((inp.filter fun a => key a ≤ ts + oneDay).getLast?).map carry =
            some ((inp[idx]?.map carry).getD st) := by
          rw [hfilter, List.getLast?_concat, hgetx]
          rfl
        exact ih (ts + oneDay) _ (idx + 1) hts' hidx' hlast' r hr
      · simp only [hmem, if_neg, not_false_iff, List.mem_cons] at hr
        -- no observed entry at the next day: the loop pushes `mk nextDay st`
        have hts' : oneDay ∣ ts + oneDay := dvd_add hts dvd_rfl
        have hnone : ∀ a ∈ inp, key a ≠ ts + oneDay := by
          intro a ha he
          exact hmem (List.mem_map.mpr ⟨a, ha, by rw [he]⟩)
        have hnogap : inp.filter (fun a => key a ≤ ts + oneDay) =
            inp.filter (fun a => key a ≤ ts) := by
          apply List.filter_congr
          intro a ha
          have hne := hnone a ha
          obtain ⟨ma, hma⟩ := hdiv a ha
          obtain ⟨mt, hmt⟩ := hts
          simp only [decide_eq_decide]
          simp only [oneDay] at *
          omega
        rcases hr with rfl | hr
        · refine ⟨ts + oneDay, st, rfl, ?_⟩
          have hlt' : inp.filter (fun a => key a < ts + oneDay) =
              inp.filter (fun a => key a ≤ ts) := by
            apply List.filter_congr
            intro a ha
            obtain ⟨ma, hma⟩ := hdiv a ha
            obtain ⟨mt, hmt⟩ := hts
            simp only [decide_eq_decide]
            simp only [oneDay] at *
            omega
          rw [hlt']
          exact hlast
        · exact ih (ts + oneDay) st idx hts'
            (by rw [hnogap]; exact hidx) (by rw [hnogap]; exact hlast) r hr
    · simp [hlt] at hr

/-- One unfolding of the gap-filling loop while the condition holds
(independent of the internal fuel, by `fillEmptyLoopF_stable`). -/
theorem fillEmptyLoop_step {α β : Type} (carry : α → β) (mk : Nat → β → α)
    (dSet : List Nat) (arr : List α) (E ts : Nat) (st : β) (idx : Nat)
    (h : ts < E - oneDay) :
    fillEmptyLoop carry mk dSet arr E ts st idx =
      if dayIndexJS (ts + oneDay) ∈ dSet then
        fillEmptyLoop carry mk dSet arr E (ts + oneDay)
          ((arr[idx]?.map carry).getD st) (idx + 1)
      else
        mk (ts + oneDay) st ::
          fillEmptyLoop carry mk dSet arr E (ts + oneDay) st idx := by
  have hod := oneDay_pos
  obtain ⟨k, hk⟩ : ∃ k, E - oneDay - ts + 1 = k + 2 := ⟨E - oneDay - ts - 1, by omega⟩
  unfold fillEmptyLoop
  rw [hk, fillEmptyLoopF.eq_2, if_pos h]
  by_cases hmem : dayIndexJS (ts + oneDay) ∈ dSet
  · simp only [hmem, if_pos]
    exact fillEmptyLoopF_stable carry mk dSet arr E _ _ _ _ _ (by omega) (by omega)
  · simp only [hmem, if_neg, not_false_iff]
    exact congrArg _ (fillEmptyLoopF_stable carry mk dSet arr E _ _ _ _ _ (by omega) (by omega))

/-- The gap-filling loop exits immediately once the condition fails. -/
theorem fillEmptyLoop_stop {α β : Type} (carry : α → β) (mk : Nat → β → α)
    (dSet : List Nat) (arr : List α) (E ts : Nat) (st : β) (idx : Nat)
    (h : ¬ ts < E - oneDay) :
    fillEmptyLoop carry mk dSet arr E ts st idx = [] := by
  unfold fillEmptyLoop
  rw [fillEmptyLoopF.eq_2, if_neg h]

/-- Two lists that are permutations of each other, the first sorted by key and
the second strictly sorted, are equal. -/
theorem perm_sorted_unique {α : Type} (key : α → Nat) :
    ∀ (l₂ l₁ : List α), List.Perm l₁ l₂ →
      l₁.Pairwise (fun a b => key a ≤ key b) →
      l₂.Pairwise (fun a b => key a < key b) →
      l₁ = l₂ := by
  intro l₂
  induction l₂ with
  | nil =>
    intro l₁ hperm _ _
    exact hperm.eq_nil
  | cons b t₂ ih =>
    intro l₁ hperm hp1 hp2
    cases l₁ with
    | nil => exact absurd hperm.symm.eq_nil (by simp)
    | cons a t₁ =>
      rw [List.pairwise_cons] at hp1 hp2
      have hab : a = b := by
        have hbl : b ∈ a :: t₁ := hperm.mem_iff.mpr (List.mem_cons_self b t₂)
        have hal : a ∈ b :: t₂ := hperm.mem_iff.mp (List.mem_cons_self a t₁)
        rw [List.mem_cons] at hbl hal
        rcases hal with heq | hal
        · exact heq
        · have h2 := hp2.1 a hal
          rcases hbl with heq | hbl
          · rw [heq] at h2; omega
          · have h1 := hp1.1 b hbl
            omega
      subst hab
      have htp : List.Perm t₁ t₂ := hperm.cons_inv
      rw [ih t₁ htp hp1.2 hp2.2]

theorem gapfill_global_carry_aux :
    ∀ (μ : Type) (inp : List (GDay μ)) (g0 : GDay μ) (tl : List (GDay μ)) (E : Nat),
      inp = g0 :: tl →
      (inp.map GDay.date).Pairwise (· < ·) →
      (∀ x ∈ inp, oneDay ∣ x.date) →
      ∀ r ∈ fillEmptyLoop (fun d => (d.totalLiquidityUSD, d.mostLiquidTokens))
          (fun nextDay st => ⟨nextDay, 0, st.1, st.2⟩)
          (inp.map fun d => dayIndexJS d.date) inp E g0.date
          (g0.totalLiquidityUSD, g0.mostLiquidTokens) 1,
        r.dailyVolumeUSD = 0 ∧
        ∃ a, (inp.filter fun x => x.date < r.date).getLast? = some a ∧
          r.totalLiquidityUSD = a.totalLiquidityUSD ∧
          r.mostLiquidTokens = a.mostLiquidTokens := by
  intro μ inp g0 tl E hcons hsort hdiv r hr
  subst hcons
  have hinv := fillEmptyLoopF_carry GDay.date
    (fun d => (d.totalLiquidityUSD, d.mostLiquidTokens))
    (fun nextDay st => ⟨nextDay, 0, st.1, st.2⟩) (g0 :: tl) hsort hdiv E
    (E - oneDay - g0.date + 1) g0.date (g0.totalLiquidityUSD, g0.mostLiquidTokens) 1
    (hdiv g0 (List.mem_cons_self g0 tl))
    (by rw [filter_le_head GDay.date g0 tl hsort]; rfl)
    (by rw [filter_le_head GDay.date g0 tl hsort]; rfl)
    r hr
  obtain ⟨d, b, rfl, hlast⟩ := hinv
  obtain ⟨a, ha, hcb⟩ := Option.map_eq_some'.mp hlast
  exact ⟨rfl, a, ha, by rw [← hcb], by rw [← hcb]⟩

theorem gapfill_pair_carry_aux :
    ∀ (inp : List PDay) (p0 : PDay) (tl : List PDay) (E : Nat),
      inp = p0 :: tl →
      (inp.map PDay.date).Pairwise (· < ·) →
      (∀ x ∈ inp, oneDay ∣ x.date) →
      ∀ r ∈ fillEmptyLoop (fun d => d.reserveUSD)
          (fun nextDay st => ⟨nextDay, some nextDay, 0, st⟩)
          (inp.map fun d => dayIndexJS d.date) inp E p0.date p0.reserveUSD 1,
        r.dailyVolumeUSD = 0 ∧
        ∃ a, (inp.filter fun x => x.date < r.date).getLast? = some a ∧
          r.reserveUSD = a.reserveUSD := by
  intro inp p0 tl E hcons hsort hdiv r hr
  subst hcons
  have hinv := fillEmptyLoopF_carry PDay.date (fun d => d.reserveUSD)
    (fun nextDay st => ⟨nextDay, some nextDay, 0, st⟩) (p0 :: tl) hsort hdiv E
    (E - oneDay - p0.date + 1) p0.date p0.reserveUSD 1
    (hdiv p0 (List.mem_cons_self p0 tl))
    (by rw [filter_le_head PDay.date p0 tl hsort]; rfl)
    (by rw [filter_le_head PDay.date p0 tl hsort]; rfl)
    r hr
  obtain ⟨d, b, rfl, hlast⟩ := hinv
  obtain ⟨a, ha, hcb⟩ := Option.map_eq_some'.mp hlast
  exact ⟨rfl, a, ha, by rw [← hcb]⟩

set_option maxRecDepth 8000 in
theorem gapfill_pair_scenario_aux :
    ∀ (d0 : Nat) (r0 r1 : ℚ) (startT E : Nat),
      oneDay ∣ d0 → d0 ≠ 0 → d0 + 3 * oneDay < E → E ≤ d0 + 4 * oneDay →
      getPairChartDataProcess [⟨d0, none, 10, r0⟩, ⟨d0 + 3 * oneDay, none, 5, r1⟩]
          startT E =
        [⟨d0, none, 10, r0⟩, ⟨d0 + oneDay, some (d0 + oneDay), 0, r0⟩,
         ⟨d0 + 2 * oneDay, some (d0 + 2 * oneDay), 0, r0⟩,
         ⟨d0 + 3 * oneDay, none, 5, r1⟩] := by
  intro d0 r0 r1 startT E hd h0 hlow hhigh
  have hod := oneDay_pos
  obtain ⟨m, rfl⟩ := hd
  have e0 : dayIndexJS (oneDay * m) = m := by
    simp only [dayIndexJS, oneDay]; omega
  have e1 : dayIndexJS (oneDay * m + oneDay) = m + 1 := by
    simp only [dayIndexJS, oneDay]; omega
  have e2 : dayIndexJS (oneDay * m + oneDay + oneDay) = m + 2 := by
    simp only [dayIndexJS, oneDay]; omega
  have e3 : dayIndexJS (oneDay * m + 3 * oneDay) = m + 3 := by
    simp only [dayIndexJS, oneDay]; omega
  have e3' : dayIndexJS (oneDay * m + oneDay + oneDay + oneDay) = m + 3 := by
    simp only [dayIndexJS, oneDay]; omega
  simp only [getPairChartDataProcess, List.map_cons, List.map_nil]
  rw [if_pos h0]
  rw [fillEmptyLoop_step _ _ _ _ _ _ _ _
    (show oneDay * m < E - oneDay by simp only [oneDay] at *; omega)]
  rw [e0, e1, e3]
  rw [if_neg (show ¬ (m + 1 ∈ [m, m + 3]) by simp)]
  rw [fillEmptyLoop_step _ _ _ _ _ _ _ _
    (show oneDay * m + oneDay < E - oneDay by simp only [oneDay] at *; omega)]
  rw [e2]
  rw [if_neg (show ¬ (m + 2 ∈ [m, m + 3]) by simp)]
  rw [fillEmptyLoop_step _ _ _ _ _ _ _ _
    (show oneDay * m + oneDay + oneDay < E - oneDay by simp only [oneDay] at *; omega)]
  rw [e3']
  rw [if_pos (show m + 3 ∈ [m, m + 3] by simp)]
  rw [fillEmptyLoop_stop _ _ _ _ _ _ _ _
    (show ¬ (oneDay * m + oneDay + oneDay + oneDay < E - oneDay) by
      simp only [oneDay] at *; omega)]
  simp only [List.cons_append, List.nil_append]
  have h2d : oneDay * m + oneDay + oneDay = oneDay * m + 2 * oneDay := by
    rw [Nat.add_assoc, ← Nat.two_mul]
  rw [h2d]
  refine perm_sorted_unique PDay.date _ _
    ((sortByKey_perm PDay.date _).trans (List.Perm.cons _
      ((List.Perm.swap _ _ _).trans (List.Perm.cons _ (List.Perm.swap _ _ _)))))
    (sortByKey_sorted PDay.date _) ?_
  simp only [List.pairwise_cons, List.mem_cons, List.mem_singleton, List.not_mem_nil,
    List.Pairwise.nil, and_true, true_and]
  refine ⟨?_, ?_, ?_, ?_⟩
  · rintro a' (rfl | rfl | rfl | f)
    · simp only [oneDay]
      omega
    · simp only [oneDay]
      omega
    · simp only [oneDay]
      omega
    · exact f.elim
  · rintro a' (rfl | rfl | f)
    · simp only [oneDay]
      omega
    · simp only [oneDay]
      omega
    · exact f.elim
  · rintro a' (rfl | f)
    · simp only [oneDay]
      omega
    · exact f.elim
  · rintro a' f
    exact f.elim

/-- C6: Every bucket synthesized by gap-filling (in `getChartData` and in
`getPairChartData`) has its flow metric (`dailyVolumeUSD`) set to zero and its
cumulative metric (`totalLiquidityUSD` with `mostLiquidTokens`, resp.
`reserveUSD`) equal to the last observed entry before the gap; in particular
daily data `[{date d0, vol 10}, {date d0+3*oneDay, vol 5}]` gap-fills to 4
contiguous daily buckets whose two synthesized middle buckets have volume 0
and the carried-forward reserve value of the `d0` bucket. -/
theorem C6_synthesized_zero_volume_carried_value :
    (∀ (μ : Type) (inp : List (GDay μ)) (g0 : GDay μ) (tl : List (GDay μ)) (E : Nat),
      inp = g0 :: tl →
      (inp.map GDay.date).Pairwise (· < ·) →
      (∀ x ∈ inp, oneDay ∣ x.date) →
      ∀ r ∈ fillEmptyLoop (fun d => (d.totalLiquidityUSD, d.mostLiquidTokens))
          (fun nextDay st => ⟨nextDay, 0, st.1, st.2⟩)
          (inp.map fun d => dayIndexJS d.date) inp E g0.date
          (g0.totalLiquidityUSD, g0.mostLiquidTokens) 1,
        r.dailyVolumeUSD = 0 ∧
        ∃ a, (inp.filter fun x => x.date < r.date).getLast? = some a ∧
          r.totalLiquidityUSD = a.totalLiquidityUSD ∧
          r.mostLiquidTokens = a.mostLiquidTokens) ∧
    (∀ (inp : List PDay) (p0 : PDay) (tl : List PDay) (E : Nat),
      inp = p0 :: tl →
      (inp.map PDay.date).Pairwise (· < ·) →
      (∀ x ∈ inp, oneDay ∣ x.date) →
      ∀ r ∈ fillEmptyLoop (fun d => d.reserveUSD)
          (fun nextDay st => ⟨nextDay, some nextDay, 0, st⟩)
          (inp.map fun d => dayIndexJS d.date) inp E p0.date p0.reserveUSD 1,
        r.dailyVolumeUSD = 0 ∧
        ∃ a, (inp.filter fun x => x.date < r.date).getLast? = some a ∧
          r.reserveUSD = a.reserveUSD) ∧
    (∀ (d0 : Nat) (r0 r1 : ℚ) (startT E : Nat),
      oneDay ∣ d0 → d0 ≠ 0 → d0 + 3 * oneDay < E → E ≤ d0 + 4 * oneDay →
      getPairChartDataProcess [⟨d0, none, 10, r0⟩, ⟨d0 + 3 * oneDay, none, 5, r1⟩]
          startT E =
        [⟨d0, none, 10, r0⟩, ⟨d0 + oneDay, some (d0 + oneDay), 0, r0⟩,
         ⟨d0 + 2 * oneDay, some (d0 + 2 * oneDay), 0, r0⟩,
         ⟨d0 + 3 * oneDay, none, 5, r1⟩]) := by
  exact ⟨gapfill_global_carry_aux, gapfill_pair_carry_aux, gapfill_pair_scenario_aux⟩

/-- Concrete run of the pair gap-filling loop used by the C6 witness. -/
theorem pairLoop_concrete :
    fillEmptyLoop (fun d => d.reserveUSD)
      (fun nextDay st => (⟨nextDay, some nextDay, 0, st⟩ : PDay)) [1, 4]
      ([⟨86400, none, 10, 100⟩, ⟨345600, none, 5, 50⟩] : List PDay) 432000 86400 100 1 =
      ([⟨172800, some 172800, 0, 100⟩, ⟨259200, some 259200, 0, 100⟩] : List PDay) := by
  have c1 : (86400 : Nat) < 432000 - oneDay := by decide
  have c2 : (86400 : Nat) + oneDay < 432000 - oneDay := by decide
  have c3 : (86400 : Nat) + oneDay + oneDay < 432000 - oneDay := by decide
  have c4 : ¬ ((86400 : Nat) + oneDay + oneDay + oneDay < 432000 - oneDay) := by decide
  have n1 : ¬ dayIndexJS (86400 + oneDay) ∈ [1, 4] := by decide
  have n2 : ¬ dayIndexJS (86400 + oneDay + oneDay) ∈ [1, 4] := by decide
  have p3 : dayIndexJS (86400 + oneDay + oneDay + oneDay) ∈ [1, 4] := by decide
  rw [fillEmptyLoop_step _ _ _ _ _ _ _ _ c1, if_neg n1,
    fillEmptyLoop_step _ _ _ _ _ _ _ _ c2, if_neg n2,
    fillEmptyLoop_step _ _ _ _ _ _ _ _ c3, if_pos p3,
    fillEmptyLoop_stop _ _ _ _ _ _ _ _ c4]
  decide

/-- Concrete run of the global gap-filling loop used by the C6 witness. -/
theorem globalLoop_concrete :
    fillEmptyLoop (fun d => (d.totalLiquidityUSD, d.mostLiquidTokens))
      (fun nextDay st => (⟨nextDay, 0, st.1, st.2⟩ : GDay Unit)) [1, 4]
      ([⟨86400, 10, 100, ()⟩, ⟨345600, 5, 50, ()⟩] : List (GDay Unit)) 432000 86400 (100, ()) 1 =
      ([⟨172800, 0, 100, ()⟩, ⟨259200, 0, 100, ()⟩] : List (GDay Unit)) := by
  have c1 : (86400 : Nat) < 432000 - oneDay := by decide
  have c2 : (86400 : Nat) + oneDay < 432000 - oneDay := by decide
  have c3 : (86400 : Nat) + oneDay + oneDay < 432000 - oneDay := by decide
  have c4 : ¬ ((86400 : Nat) + oneDay + oneDay + oneDay < 432000 - oneDay) := by decide
  have n1 : ¬ dayIndexJS (86400 + oneDay) ∈ [1, 4] := by decide
  have n2 : ¬ dayIndexJS (86400 + oneDay + oneDay) ∈ [1, 4] := by decide
  have p3 : dayIndexJS (86400 + oneDay + oneDay + oneDay) ∈ [1, 4] := by decide
  rw [fillEmptyLoop_step _ _ _ _ _ _ _ _ c1, if_neg n1,
    fillEmptyLoop_step _ _ _ _ _ _ _ _ c2, if_neg n2,
    fillEmptyLoop_step _ _ _ _ _ _ _ _ c3, if_pos p3,
    fillEmptyLoop_stop _ _ _ _ _ _ _ _ c4]
  decide

/-- Witness for C6 at concrete inputs: both loops run on two observed days with
a two-day gap, and the end-to-end pair scenario. -/
theorem C6_witness :
    ((⟨172800, 0, 100, ()⟩ : GDay Unit).dailyVolumeUSD = 0 ∧
      ∃ a, (([⟨86400, 10, 100, ()⟩, (⟨345600, 5, 50, ()⟩ : GDay Unit)]).filter
          fun x => x.date < (⟨172800, 0, 100, ()⟩ : GDay Unit).date).getLast? = some a ∧
        (⟨172800, 0, 100, ()⟩ : GDay Unit).totalLiquidityUSD = a.totalLiquidityUSD ∧
        (⟨172800, 0, 100, ()⟩ : GDay Unit).mostLiquidTokens = a.mostLiquidTokens) ∧
    ((⟨172800, some 172800, 0, 100⟩ : PDay).dailyVolumeUSD = 0 ∧
      ∃ a, (([⟨86400, none, 10, 100⟩, (⟨345600, none, 5, 50⟩ : PDay)]).filter
          fun x => x.date < (⟨172800, some 172800, 0, 100⟩ : PDay).date).getLast? = some a ∧
        (⟨172800, some 172800, 0, 100⟩ : PDay).reserveUSD = a.reserveUSD) ∧
    getPairChartDataProcess [⟨86400, none, 10, 100⟩, ⟨345600, none, 5, 50⟩] 0 432000 =
      [⟨86400, none, 10, 100⟩, ⟨172800, some 172800, 0, 100⟩,
       ⟨259200, some 259200, 0, 100⟩, ⟨345600, none, 5, 50⟩] := by
  have h := C6_synthesized_zero_volume_carried_value
  refine ⟨?_, ?_, ?_⟩
  · refine h.1 Unit [⟨86400, 10, 100, ()⟩, ⟨345600, 5, 50, ()⟩] ⟨86400, 10, 100, ()⟩
      [⟨345600, 5, 50, ()⟩] 432000 rfl (by decide) (by decide)
      ⟨172800, 0, 100, ()⟩ ?_
    have hm : (⟨172800, 0, 100, ()⟩ : GDay Unit) ∈
        fillEmptyLoop (fun d => (d.totalLiquidityUSD, d.mostLiquidTokens))
          (fun nextDay st => ⟨nextDay, 0, st.1, st.2⟩) [1, 4]
          [⟨86400, 10, 100, ()⟩, ⟨345600, 5, 50, ()⟩] 432000 86400 (100, ()) 1 := by
      rw [globalLoop_concrete]
      simp
    exact hm
  · refine h.2.1 [⟨86400, none, 10, 100⟩, ⟨345600, none, 5, 50⟩] ⟨86400, none, 10, 100⟩
      [⟨345600, none, 5, 50⟩] 432000 rfl (by decide) (by decide)
      ⟨172800, some 172800, 0, 100⟩ ?_
    have hm : (⟨172800, some 172800, 0, 100⟩ : PDay) ∈
        fillEmptyLoop (fun d => d.reserveUSD)
          (fun nextDay st => ⟨nextDay, some nextDay, 0, st⟩) [1, 4]
          [⟨86400, none, 10, 100⟩, ⟨345600, none, 5, 50⟩] 432000 86400 100 1 := by
      rw [pairLoop_concrete]
      simp
    exact hm
  · exact h.2.2 86400 100 50 0 432000 (by decide) (by decide) (by decide) (by decide)

/-- C9: whenever the 1-day-old snapshot is absent, `parseData` sets the derived
one-day volume to the pair's current lifetime volume unconditionally —
regardless of how the creation block compares to the 1-day reference block —
so a pair older than one day whose historical lookup merely failed also
reports its lifetime volume as its one-day volume. -/
theorem C9_oneday_absent_unconditional_lifetime
    (data : PairFields) (twoDayData oneWeekData : Option PairFields)
    (oneDayBlock : Nat) :
    (parseData data none twoDayData oneWeekData oneDayBlock).oneDayVolumeUSD =
      data.volumeUSD := by
  simp [parseData]

/-- C4: a pair with no 1-day-old snapshot whose creation block is after the
1-day reference block gets its lifetime volume as its one-day volume; and
`getBulkPairData` over three addresses where the third pair did not exist at
the 1-day-old block (absent from the bulk result, empty fallback) returns
three bundles, the third one's one-day volume being its lifetime volume. -/
theorem C4_young_pair_oneday_is_lifetime :
    (∀ (data : PairFields) (twoDayData oneWeekData : Option PairFields) (oneDayBlock : Nat),
      data.createdAtBlockNumber > oneDayBlock →
      (parseData data none twoDayData oneWeekData oneDayBlock).oneDayVolumeUSD =
        data.volumeUSD) ∧
    (∀ (env : BulkEnv) (A B C : String) (pa pb pc : PairFields)
        (b1 b2 bw : BlockRef) (rest : List BlockRef),
      env.blocks = .ok (b1 :: b2 :: bw :: rest) →
      env.current [A, B, C] = .ok [pa, pb, pc] →
      lookupPair (histOrEmpty (env.hist b1.number [A, B, C])) pc.id = none →
      env.pairData pc.id b1.number = .ok [] →
      pc.createdAtBlockNumber > b1.number →
      ∃ x y z, getBulkPairData env [A, B, C] = .ok (some [x, y, z]) ∧
        z.oneDayVolumeUSD = pc.volumeUSD) := by
  constructor
  · intro data twoD oneW b _
    simp [parseData]
  · intro env A B C pa pb pc b1 b2 bw rest hb hc hl hf _
    refine ⟨assemblePair env [A, B, C] b1.number b2.number bw.number pa,
            assemblePair env [A, B, C] b1.number b2.number bw.number pb,
            assemblePair env [A, B, C] b1.number b2.number bw.number pc, ?_, ?_⟩
    · simp [getBulkPairData, hb, hc]
    · simp only [assemblePair, assembleHistory, hl, hf, List.head?]
      simp [parseData]

/-- C2 counterexample: with every query healthy except the
timestamp-to-block resolution step, `getBulkPairData` throws to its caller
instead of returning a partial result list. -/
theorem C2_counterexample_resolution_failure_throws :
    getBulkPairData envC2 ["0xpair"] = .error () := rfl

/-- C2 (amended): once the block resolution step has succeeded with at least
three blocks, `getBulkPairData` never throws: each remaining query failure is
caught and treated as absent data, a failed current bulk query makes it return
`undefined` rather than a list, and a successful current query always yields
one bundle per returned pair, whatever the other failures. -/
theorem C2_amended_no_throw_after_resolution
    (env : BulkEnv) (pairList : List String) (b1 b2 bw : BlockRef)
    (rest : List BlockRef)
    (hb : env.blocks = .ok (b1 :: b2 :: bw :: rest)) :
    (∀ e, getBulkPairData env pairList ≠ .error e) ∧
    (∀ ps, env.current pairList = .ok ps →
      ∃ l, getBulkPairData env pairList = .ok (some l) ∧ l.length = ps.length) := by
  constructor
  · intro e
    simp only [getBulkPairData, hb]
    cases henv : env.current pairList with
    | error err => simp
    | ok ps => simp
  · intro ps hc
    refine ⟨ps.map (assemblePair env pairList b1.number b2.number bw.number), ?_, ?_⟩
    · simp [getBulkPairData, hb, hc]
    · simp

/-- Witness for the amended C2 at a concrete environment. -/
theorem C2_amended_witness :
    (∀ e, getBulkPairData
      { blocks := .ok [⟨10⟩, ⟨9⟩, ⟨5⟩]
        current := fun _ => .ok [⟨"0xa", 1, 1, 7, 0, 5⟩]
        hist := fun _ _ => .error ()
        pairData := fun _ _ => .error () } ["0xa"] ≠ .error e) ∧
    ∃ l, getBulkPairData
      { blocks := .ok [⟨10⟩, ⟨9⟩, ⟨5⟩]
        current := fun _ => .ok [⟨"0xa", 1, 1, 7, 0, 5⟩]
        hist := fun _ _ => .error ()
        pairData := fun _ _ => .error () } ["0xa"] = .ok (some l) ∧ l.length = 1 := by
  have h := C2_amended_no_throw_after_resolution
    { blocks := .ok [⟨10⟩, ⟨9⟩, ⟨5⟩]
      current := fun _ => .ok [⟨"0xa", 1, 1, 7, 0, 5⟩]
      hist := fun _ _ => .error ()
      pairData := fun _ _ => .error () } ["0xa"] ⟨10⟩ ⟨9⟩ ⟨5⟩ [] rfl
  exact ⟨h.1, h.2 [⟨"0xa", 1, 1, 7, 0, 5⟩] rfl⟩

/-- Witness for C4 at a concrete environment: three pairs, the third absent
from the 1-day historical bulk result and with an empty fallback. -/
theorem C4_witness :
    ∃ x y z, getBulkPairData
      { blocks := .ok [⟨10⟩, ⟨9⟩, ⟨5⟩]
        current := fun _ => .ok
          [⟨"0xa", 1, 1, 7, 0, 5⟩, ⟨"0xb", 2, 2, 8, 0, 5⟩, ⟨"0xc", 3, 3, 9, 0, 100⟩]
        hist := fun _ _ => .ok [⟨"0xa", 1, 1, 6, 0, 5⟩, ⟨"0xb", 2, 2, 6, 0, 5⟩]
        pairData := fun _ _ => .ok [] } ["0xa", "0xb", "0xc"] = .ok (some [x, y, z]) ∧
      z.oneDayVolumeUSD = 9 := by
  exact C4_young_pair_oneday_is_lifetime.2
    { blocks := .ok [⟨10⟩, ⟨9⟩, ⟨5⟩]
      current := fun _ => .ok
        [⟨"0xa", 1, 1, 7, 0, 5⟩, ⟨"0xb", 2, 2, 8, 0, 5⟩, ⟨"0xc", 3, 3, 9, 0, 100⟩]
      hist := fun _ _ => .ok [⟨"0xa", 1, 1, 6, 0, 5⟩, ⟨"0xb", 2, 2, 6, 0, 5⟩]
      pairData := fun _ _ => .ok [] }
    "0xa" "0xb" "0xc" ⟨"0xa", 1, 1, 7, 0, 5⟩ ⟨"0xb", 2, 2, 8, 0, 5⟩ ⟨"0xc", 3, 3, 9, 0, 100⟩
    ⟨10⟩ ⟨9⟩ ⟨5⟩ [] rfl rfl (by decide) rfl (by decide)

theorem pairwise_head_min {α : Type} (key : α → Nat) (l : List α)
    (hp : l.Pairwise (fun a b => key a ≤ key b)) (b : α) (hh : l.head? = some b) :
    ∀ x ∈ l, key b ≤ key x := by
  intro x hx
  cases l with
  | nil => simp at hh
  | cons a t =>
    simp only [List.head?_cons, Option.some.injEq] at hh
    subst hh
    rw [List.mem_cons] at hx
    rcases hx with rfl | hx
    · exact Nat.le_refl _
    · exact (List.pairwise_cons.mp hp).1 x hx

theorem mem_of_getLast?_eq {α : Type} : ∀ {l : List α} {b : α}, l.getLast? = some b → b ∈ l
  | [], _, h => by simp at h
  | [a], b, h => by
    simp only [List.getLast?_singleton, Option.some.injEq] at h
    simp [h]
  | a :: c :: u, b, h => by
    rw [List.getLast?_cons_cons] at h
    exact List.mem_cons_of_mem a (mem_of_getLast?_eq h)

theorem pairwise_getLast_max {α : Type} (key : α → Nat) :
    ∀ (l : List α), l.Pairwise (fun a b => key a ≤ key b) →
      ∀ b, l.getLast? = some b → ∀ x ∈ l, key x ≤ key b := by
  intro l
  induction l with
  | nil =>
    intro _ b hb
    simp at hb
  | cons a t ih =>
    intro hp b hb x hx
    cases t with
    | nil =>
      simp only [List.getLast?_singleton, Option.some.injEq] at hb
      simp only [List.mem_singleton] at hx
      rw [hx, ← hb]
    | cons c u =>
      have hb' : (c :: u).getLast? = some b := by
        rw [List.getLast?_cons_cons] at hb
        exact hb
      rw [List.mem_cons] at hx
      rcases hx with rfl | hx
      · have hbmem : b ∈ c :: u := mem_of_getLast?_eq hb'
        exact (List.pairwise_cons.mp hp).1 b hbmem
      · exact ih (List.pairwise_cons.mp hp).2 b hb' x hx

/-- C3 counterexample: with two blocks strictly inside the 600-second window,
the `GET_BLOCKS` sub-query returns the one with the latest timestamp (its
`orderDirection: desc`), not the earliest one — which is what the
single-timestamp `GET_BLOCK` query returns over the same store. -/
theorem C3_counterexample_window_picks_latest :
    GET_BLOCKS_sub [⟨1, 110⟩, ⟨2, 120⟩] 100 = some ⟨2, 120⟩ ∧
    GET_BLOCK_run [⟨1, 110⟩, ⟨2, 120⟩] 100 700 = some ⟨1, 110⟩ ∧
    (⟨2, 120⟩ : ChainBlock) ≠ ⟨1, 110⟩ := by
  decide

/-- C3 (amended): the resolver preserves input order and one-to-one
correspondence with its timestamps, and `GET_BLOCK` selects the earliest block
strictly between its two bounds; but each `GET_BLOCKS` sub-query orders
descending, so it selects the LATEST block strictly inside the 600-second
window starting at the timestamp, not the earliest. -/
theorem C3_amended_resolver_window_selection :
    (∀ (chain : List ChainBlock) (timestamps : List Nat),
      (getBlocksFromTimestamps chain timestamps).length = timestamps.length ∧
      ∀ (i : Nat), i < timestamps.length →
        (getBlocksFromTimestamps chain timestamps)[i]? =
          some (GET_BLOCKS_sub chain (timestamps.getD i 0))) ∧
    (∀ (chain : List ChainBlock) (tF tT : Nat) (b : ChainBlock),
      GET_BLOCK_run chain tF tT = some b →
      b ∈ chain ∧ tF < b.timestamp ∧ b.timestamp < tT ∧
        ∀ x ∈ chain, tF < x.timestamp → x.timestamp < tT → b.timestamp ≤ x.timestamp) ∧
    (∀ (chain : List ChainBlock) (t : Nat) (b : ChainBlock),
      GET_BLOCKS_sub chain t = some b →
      b ∈ chain ∧ t < b.timestamp ∧ b.timestamp < t + 600 ∧
        ∀ x ∈ chain, t < x.timestamp → x.timestamp < t + 600 →
          x.timestamp ≤ b.timestamp) := by
  refine ⟨?_, ?_, ?_⟩
  · intro chain timestamps
    constructor
    · simp [getBlocksFromTimestamps]
    · intro i hi
      simp only [getBlocksFromTimestamps, List.getElem?_map]
      rw [List.getElem?_eq_getElem hi]
      simp [List.getD, List.getElem?_eq_getElem hi]
  · intro chain tF tT b hrun
    have hsorted := sortByKey_sorted (fun b => b.timestamp) (blocksWhere chain tF tT)
    have hperm := sortByKey_perm (fun b => b.timestamp) (blocksWhere chain tF tT)
    have hbmem : b ∈ sortByKey (fun b => b.timestamp) (blocksWhere chain tF tT) := by
      cases hs : sortByKey (fun b => b.timestamp) (blocksWhere chain tF tT) with
      | nil => rw [GET_BLOCK_run, hs] at hrun; simp at hrun
      | cons a t =>
        rw [GET_BLOCK_run, hs] at hrun
        simp only [List.head?_cons, Option.some.injEq] at hrun
        rw [← hrun]
        exact List.mem_cons_self a t
    have hbw : b ∈ blocksWhere chain tF tT := hperm.mem_iff.mp hbmem
    have hb' := List.mem_filter.mp hbw
    have hcond := of_decide_eq_true hb'.2
    refine ⟨hb'.1, hcond.1, hcond.2, ?_⟩
    intro x hxchain hx1 hx2
    have hxw : x ∈ blocksWhere chain tF tT :=
      List.mem_filter.mpr ⟨hxchain, decide_eq_true ⟨hx1, hx2⟩⟩
    exact pairwise_head_min (fun b => b.timestamp) _ hsorted b hrun x
      (hperm.mem_iff.mpr hxw)
  · intro chain t b hrun
    have hsorted := sortByKey_sorted (fun b => b.timestamp) (blocksWhere chain t (t + 600))
    have hperm := sortByKey_perm (fun b => b.timestamp) (blocksWhere chain t (t + 600))
    rw [GET_BLOCKS_sub, List.head?_reverse] at hrun
    have hbmem : b ∈ sortByKey (fun b => b.timestamp) (blocksWhere chain t (t + 600)) :=
      mem_of_getLast?_eq hrun
    have hbw : b ∈ blocksWhere chain t (t + 600) := hperm.mem_iff.mp hbmem
    have hb' := List.mem_filter.mp hbw
    have hcond := of_decide_eq_true hb'.2
    refine ⟨hb'.1, hcond.1, hcond.2, ?_⟩
    intro x hxchain hx1 hx2
    have hxw : x ∈ blocksWhere chain t (t + 600) :=
      List.mem_filter.mpr ⟨hxchain, decide_eq_true ⟨hx1, hx2⟩⟩
    exact pairwise_getLast_max (fun b => b.timestamp) _ hsorted b hrun x
      (hperm.mem_iff.mpr hxw)

/-- Witness for the amended C3 at a concrete two-block store. -/
theorem C3_amended_witness :
    (getBlocksFromTimestamps [⟨1, 110⟩, ⟨2, 120⟩] [100]).length = 1 ∧
    ((⟨1, 110⟩ : ChainBlock) ∈ ([⟨1, 110⟩, ⟨2, 120⟩] : List ChainBlock) ∧
      (100 : Nat) < (⟨1, 110⟩ : ChainBlock).timestamp ∧
      (⟨1, 110⟩ : ChainBlock).timestamp < 700 ∧
      ∀ x ∈ ([⟨1, 110⟩, ⟨2, 120⟩] : List ChainBlock),
        100 < x.timestamp → x.timestamp < 700 →
          (⟨1, 110⟩ : ChainBlock).timestamp ≤ x.timestamp) ∧
    ((⟨2, 120⟩ : ChainBlock) ∈ ([⟨1, 110⟩, ⟨2, 120⟩] : List ChainBlock) ∧
      (100 : Nat) < (⟨2, 120⟩ : ChainBlock).timestamp ∧
      (⟨2, 120⟩ : ChainBlock).timestamp < 100 + 600 ∧
      ∀ x ∈ ([⟨1, 110⟩, ⟨2, 120⟩] : List ChainBlock),
        100 < x.timestamp → x.timestamp < 100 + 600 →
          x.timestamp ≤ (⟨2, 120⟩ : ChainBlock).timestamp) := by
  refine ⟨(C3_amended_resolver_window_selection.1 [⟨1, 110⟩, ⟨2, 120⟩] [100]).1, ?_, ?_⟩
  · exact C3_amended_resolver_window_selection.2.1 [⟨1, 110⟩, ⟨2, 120⟩] 100 700
      ⟨1, 110⟩ (by decide)
  · exact C3_amended_resolver_window_selection.2.2 [⟨1, 110⟩, ⟨2, 120⟩] 100
      ⟨2, 120⟩ (by decide)

theorem paginateLoopF_step {α : Type} (N : Nat) (pages : Nat → List α)
    (fuel skip : Nat) (acc : List α) :
    paginateLoopF N pages (fuel + 1) skip acc =
      if (pages skip).length < N ∨ N < (acc ++ pages skip).length
      then acc ++ pages skip
      else paginateLoopF N pages fuel (skip + N) (acc ++ pages skip) := rfl

theorem paginateLoopF_stop {α : Type} (N : Nat) (pages : Nat → List α)
    (fuel skip : Nat) (acc : List α) (hN : 0 < N) (hacc : N ≤ acc.length) :
    paginateLoopF N pages (fuel + 1) skip acc = acc ++ pages skip := by
  rw [paginateLoopF_step, if_pos]
  by_cases h : (pages skip).length < N
  · exact Or.inl h
  · refine Or.inr ?_
    rw [List.length_append]
    omega

theorem paginateLoopF_stable {α : Type} (N : Nat) (pages : Nat → List α)
    (hN : 0 < N) (fuel : Nat) (hfuel : 2 ≤ fuel) (skip : Nat) (acc : List α) :
    paginateLoopF N pages fuel skip acc = paginateLoopF N pages 2 skip acc := by
  obtain ⟨k, rfl⟩ : ∃ k, fuel = (k + 1) + 1 := ⟨fuel - 2, by omega⟩
  rw [show (2 : Nat) = 1 + 1 from rfl, paginateLoopF_step, paginateLoopF_step N pages 1]
  by_cases h : (pages skip).length < N ∨ N < (acc ++ pages skip).length
  · rw [if_pos h, if_pos h]
  · rw [if_neg h, if_neg h]
    push_neg at h
    have hacc : N ≤ (acc ++ pages skip).length := by
      rw [List.length_append]
      omega
    rw [show (1 : Nat) = 0 + 1 from rfl, paginateLoopF_stop N pages k _ _ hN hacc,
      paginateLoopF_stop N pages 0 _ _ hN hacc]

theorem paginateLoopF_length_le {α : Type} (N : Nat) (pages : Nat → List α)
    (hN : 0 < N) (hp : ∀ s, (pages s).length ≤ N) :
    (paginateLoopF N pages 2 0 []).length ≤ 2 * N := by
  rw [show (2 : Nat) = 1 + 1 from rfl, paginateLoopF_step]
  by_cases h : (pages 0).length < N ∨ N < (([] : List α) ++ pages 0).length
  · rw [if_pos h]
    have := hp 0
    simp only [List.nil_append, List.length_append]
    omega
  · rw [if_neg h]
    push_neg at h
    have hacc : N ≤ (([] : List α) ++ pages 0).length := by
      simp only [List.nil_append]
      omega
    rw [show (1 : Nat) = 0 + 1 from rfl, paginateLoopF_stop N pages 0 _ _ hN hacc]
    have h1 := hp 0
    have h2 := hp (0 + N)
    simp only [List.nil_append, List.length_append]
    omega

/-- C10: both pagination loops stop after at most two page fetches on every
response sequence — any fuel of at least two iterations gives the same result
as exactly two — and when the source honours the `first: 500` page size, each
returns at most 1000 entities even if the source holds more. -/
theorem C10_pagination_at_most_two_fetches :
    (∀ (α : Type) (pages : Nat → List α) (fuel : Nat), 2 ≤ fuel →
      getAllPairsOnUbeswap pages fuel = getAllPairsOnUbeswap pages 2 ∧
      getAllTokensOnUbeswap pages fuel = getAllTokensOnUbeswap pages 2) ∧
    (∀ (α : Type) (pages : Nat → List α), (∀ s, (pages s).length ≤ 500) →
      ∀ fuel, 2 ≤ fuel →
        (getAllPairsOnUbeswap pages fuel).length ≤ 1000 ∧
        (getAllTokensOnUbeswap pages fuel).length ≤ 1000) := by
  constructor
  · intro α pages fuel hfuel
    exact ⟨paginateLoopF_stable PAIRS_TO_FETCH pages (by decide) fuel hfuel 0 [],
      paginateLoopF_stable TOKENS_TO_FETCH pages (by decide) fuel hfuel 0 []⟩
  · intro α pages hp fuel hfuel
    constructor
    · rw [getAllPairsOnUbeswap,
        paginateLoopF_stable PAIRS_TO_FETCH pages (by decide) fuel hfuel 0 []]
      exact paginateLoopF_length_le PAIRS_TO_FETCH pages (by decide) hp
    · rw [getAllTokensOnUbeswap,
        paginateLoopF_stable TOKENS_TO_FETCH pages (by decide) fuel hfuel 0 []]
      exact paginateLoopF_length_le TOKENS_TO_FETCH pages (by decide) hp

/-- Witness for C10 at a concrete response sequence: a single full page of 500
entities followed by a second full page. -/
theorem C10_witness :
    (getAllPairsOnUbeswap (fun _ => List.replicate 500 0) 7 =
       getAllPairsOnUbeswap (fun _ => List.replicate 500 0) 2 ∧
     getAllTokensOnUbeswap (fun _ => List.replicate 500 0) 7 =
       getAllTokensOnUbeswap (fun _ => List.replicate 500 0) 2) ∧
    ((getAllPairsOnUbeswap (fun _ => List.replicate 500 0) 2).length ≤ 1000 ∧
     (getAllTokensOnUbeswap (fun _ => List.replicate 500 0) 2).length ≤ 1000) :=
  ⟨C10_pagination_at_most_two_fetches.1 Nat (fun _ => List.replicate 500 0) 7 (by decide),
   C10_pagination_at_most_two_fetches.2 Nat (fun _ => List.replicate 500 0)
     (fun _ => by rw [List.length_replicate]) 2 (by decide)⟩

theorem sortByQDesc_perm {α : Type} (key : α → ℚ) (l : List α) :
    List.Perm (sortByQDesc key l) l :=
  List.perm_insertionSort _ l

theorem sortByQDesc_sorted {α : Type} (key : α → ℚ) (l : List α) :
    (sortByQDesc key l).Pairwise (fun a b => key b ≤ key a) :=
  @List.sorted_insertionSort α (fun a b => key b ≤ key a)
    (fun a b => inferInstanceAs (Decidable (key b ≤ key a)))
    ⟨fun a b => le_total (key b) (key a)⟩
    ⟨fun _ _ _ h1 h2 => le_trans h2 h1⟩ l

/-- C7: the top-LP assembler returns at most 100 entries, sorted descending by
USD value; every entry comes from a successful per-pair query over the top-99
pair keys via the `(balance / totalSupply) × reserveUSD` formula; and an
all-failing query set contributes no positions at all. -/
theorem C7_top_lps_sorted_bounded_provenance :
    (∀ (keys : List String) (info : String → PairInfo)
        (queries : String → Option (List LiquidityPosition)),
      (useTopLpsFetch keys info queries).length ≤ 100 ∧
      (useTopLpsFetch keys info queries).Pairwise (fun a b => b.usd ≤ a.usd) ∧
      (∀ e ∈ useTopLpsFetch keys info queries,
        ∃ pid ∈ topPairKeys keys info, ∃ l, queries pid = some l ∧
          ∃ p ∈ l, e = mkTopLp info p ∧
            e.usd = p.liquidityTokenBalance / (info p.pairId).totalSupply *
              (info p.pairId).reserveUSD)) ∧
    (∀ (keys : List String) (info : String → PairInfo),
      useTopLpsFetch keys info (fun _ => none) = []) := by
  constructor
  · intro keys info queries
    refine ⟨List.length_take_le _ _, ?_, ?_⟩
    · exact (sortByQDesc_sorted (fun t : TopLp => t.usd) _).sublist (List.take_sublist _ _)
    · intro e he
      have he1 : e ∈ sortByQDesc (fun t : TopLp => t.usd)
          ((topPairKeys keys info).filterMap queries |>.flatMap
            (fun list => list.map (mkTopLp info))) :=
        List.take_subset _ _ he
      have he2 := (sortByQDesc_perm (fun t : TopLp => t.usd) _).mem_iff.mp he1
      rw [List.mem_flatMap] at he2
      obtain ⟨list, hlist, hel⟩ := he2
      rw [List.mem_filterMap] at hlist
      obtain ⟨pid, hpid, hq⟩ := hlist
      rw [List.mem_map] at hel
      obtain ⟨p, hp, rfl⟩ := hel
      exact ⟨pid, hpid, list, hq, p, hp, rfl, rfl⟩
  · intro keys info
    have h0 : List.filterMap (fun _ => (none : Option (List LiquidityPosition)))
        (topPairKeys keys info) = [] := by simp
    simp [useTopLpsFetch, h0, sortByQDesc]

/-- Witness for C7 at a one-pair, one-position instance. -/
theorem C7_witness :
    ((useTopLpsFetch ["p1"] (fun _ => ⟨100, 10, "A", "B", "a", "b"⟩)
        (fun _ => some [⟨"u", "p1", 5⟩])).length ≤ 100 ∧
      (∃ pid ∈ topPairKeys ["p1"] (fun _ => ⟨100, 10, "A", "B", "a", "b"⟩),
        ∃ l, (fun (_ : String) => some [(⟨"u", "p1", 5⟩ : LiquidityPosition)]) pid = some l ∧
          ∃ p ∈ l,
            mkTopLp (fun _ => ⟨100, 10, "A", "B", "a", "b"⟩) ⟨"u", "p1", 5⟩ =
              mkTopLp (fun _ => ⟨100, 10, "A", "B", "a", "b"⟩) p ∧
            (mkTopLp (fun _ => ⟨100, 10, "A", "B", "a", "b"⟩) ⟨"u", "p1", 5⟩).usd =
              p.liquidityTokenBalance /
                ((fun (_ : String) => (⟨100, 10, "A", "B", "a", "b"⟩ : PairInfo)) p.pairId).totalSupply *
                ((fun (_ : String) => (⟨100, 10, "A", "B", "a", "b"⟩ : PairInfo)) p.pairId).reserveUSD)) ∧
    useTopLpsFetch ["p1"] (fun _ => ⟨100, 10, "A", "B", "a", "b"⟩) (fun _ => none) = [] := by
  have h := C7_top_lps_sorted_bounded_provenance
  refine ⟨⟨(h.1 ["p1"] (fun _ => ⟨100, 10, "A", "B", "a", "b"⟩)
      (fun _ => some [⟨"u", "p1", 5⟩])).1, ?_⟩,
    h.2 ["p1"] (fun _ => ⟨100, 10, "A", "B", "a", "b"⟩)⟩
  exact (h.1 ["p1"] (fun _ => ⟨100, 10, "A", "B", "a", "b"⟩)
      (fun _ => some [⟨"u", "p1", 5⟩])).2.2
    (mkTopLp (fun _ => ⟨100, 10, "A", "B", "a", "b"⟩) ⟨"u", "p1", 5⟩)
    (by simp [useTopLpsFetch, topPairKeys, sortByQDesc, List.insertionSort,
      List.orderedInsert, List.filterMap_cons])

theorem chunkListF_flatten {α : Type} (B : Nat) (hB : 1 ≤ B) :
    ∀ (fuel : Nat) (l : List α), l.length ≤ fuel → (chunkListF B fuel l).flatten = l := by
  intro fuel
  induction fuel with
  | zero =>
    intro l hl
    rw [List.length_eq_zero.mp (Nat.le_zero.mp hl)]
    rfl
  | succ n ih =>
    intro l hl
    cases l with
    | nil => rfl
    | cons a t =>
      have hdrop : ((a :: t).drop B).length ≤ n := by
        rw [List.length_drop]
        simp only [List.length_cons] at hl ⊢
        omega
      simp only [chunkListF, List.flatten_cons, ih _ hdrop, List.take_append_drop]

theorem ceil_div_succ_aux (m B : Nat) (hB : 1 ≤ B) :
    (m + 1 - B + B - 1) / B + 1 = (m + 1 + B - 1) / B := by
  have hR : m + 1 + B - 1 = m + B := by omega
  rw [hR, Nat.add_div_right m (by omega)]
  rcases Nat.le_total B (m + 1) with hge | hle
  · have hL : m + 1 - B + B - 1 = m := by omega
    rw [hL]
  · have hL : m + 1 - B + B - 1 = B - 1 := by omega
    rw [hL, Nat.div_eq_of_lt (by omega), Nat.div_eq_of_lt (by omega)]

theorem chunkListF_length {α : Type} (B : Nat) (hB : 1 ≤ B) :
    ∀ (fuel : Nat) (l : List α), l.length ≤ fuel →
      (chunkListF B fuel l).length = (l.length + B - 1) / B := by
  intro fuel
  induction fuel with
  | zero =>
    intro l hl
    rw [List.length_eq_zero.mp (Nat.le_zero.mp hl)]
    simp only [chunkListF, List.length_nil]
    rw [Nat.div_eq_of_lt (by omega)]
  | succ n ih =>
    intro l hl
    cases l with
    | nil =>
      simp only [chunkListF, List.length_nil]
      rw [Nat.div_eq_of_lt (by omega)]
    | cons a t =>
      have hdrop : ((a :: t).drop B).length ≤ n := by
        rw [List.length_drop]
        simp only [List.length_cons] at hl ⊢
        omega
      simp only [chunkListF, List.length_cons, ih _ hdrop, List.length_drop]
      exact ceil_div_succ_aux t.length B hB

theorem flatMap_map_pairs {α β : Type} (f : α → β) (chunks : List (List α)) :
    chunks.flatMap (fun c => c.map f) = chunks.flatten.map f := by
  induction chunks with
  | nil => rfl
  | cons c cs ih => simp only [List.flatMap_cons, List.flatten_cons, List.map_append, ih]

/-- C8: for every query template, item list and batch size of at least 1, the
batcher's merged alias-to-payload mapping equals the per-item mapping in input
order — hence it is independent of the batch size (batchSize 10 and
batchSize = number of items agree with any other) — and the items are split
into ceil(N / B) batches. -/
theorem C8_batcher_batch_size_independent :
    (∀ (α β : Type) (q : α → β) (items : List α) (B : Nat), 1 ≤ B →
      queryBatcherRun q B items = items.map (fun i => (i, q i))) ∧
    (∀ (α β : Type) (q : α → β) (items : List α) (B B2 : Nat), 1 ≤ B → 1 ≤ B2 →
      queryBatcherRun q B items = queryBatcherRun q B2 items) ∧
    (∀ (α : Type) (items : List α) (B : Nat), 1 ≤ B →
      (chunkList B items).length = (items.length + B - 1) / B) := by
  have hmain : ∀ (α β : Type) (q : α → β) (items : List α) (B : Nat), 1 ≤ B →
      queryBatcherRun q B items = items.map (fun i => (i, q i)) := by
    intro α β q items B hB
    rw [queryBatcherRun, flatMap_map_pairs, chunkList,
      chunkListF_flatten B hB items.length items (Nat.le_refl _)]
  refine ⟨hmain, ?_, ?_⟩
  · intro α β q items B B2 hB hB2
    rw [hmain α β q items B hB, hmain α β q items B2 hB2]
  · intro α items B hB
    exact chunkListF_length B hB items.length items (Nat.le_refl _)

/-- Witness for C8 on three items with batch sizes 2, 10 and 3. -/
theorem C8_witness :
    queryBatcherRun (fun n => n * 2) 2 [1, 2, 3] =
      [1, 2, 3].map (fun i => (i, i * 2)) ∧
    queryBatcherRun (fun n => n * 2) 10 [1, 2, 3] =
      queryBatcherRun (fun n => n * 2) 3 [1, 2, 3] ∧
    (chunkList 2 [1, 2, 3]).length = (3 + 2 - 1) / 2 :=
  ⟨C8_batcher_batch_size_independent.1 Nat Nat (fun n => n * 2) [1, 2, 3] 2 (by decide),
   C8_batcher_batch_size_independent.2.1 Nat Nat (fun n => n * 2) [1, 2, 3] 10 3
     (by decide) (by decide),
   C8_batcher_batch_size_independent.2.2 Nat [1, 2, 3] 2 (by decide)⟩

theorem weeklyAggAux_cons_ne {μ : Type} (d : GDay μ) (rest : List (GDay μ))
    (w : Int) (cur : Option WeeklyEntry) (h : ((dayjsWeek d.date : Nat) : Int) ≠ w) :
    weeklyAggAux (d :: rest) w cur =
      cur.toList ++ weeklyAggAux rest (dayjsWeek d.date)
        (some ⟨d.date, d.dailyVolumeUSD⟩) := by
  simp only [weeklyAggAux]
  rw [if_pos h]

theorem weeklyAggAux_cons_eq {μ : Type} (d : GDay μ) (rest : List (GDay μ))
    (w : Int) (cur : Option WeeklyEntry) (h : ((dayjsWeek d.date : Nat) : Int) = w) :
    weeklyAggAux (d :: rest) w cur =
      weeklyAggAux rest w
        (cur.map fun b => ⟨d.date, b.weeklyVolumeUSD + d.dailyVolumeUSD⟩) := by
  simp only [weeklyAggAux]
  rw [if_neg (fun hc => hc h)]

theorem weeklyAggAux_cons_ne_mk {μ : Type} (dt : Nat) (vol liq : ℚ) (mlt : μ)
    (rest : List (GDay μ)) (w : Int) (cur : Option WeeklyEntry)
    (h : ((dayjsWeek dt : Nat) : Int) ≠ w) :
    weeklyAggAux (⟨dt, vol, liq, mlt⟩ :: rest) w cur =
      cur.toList ++ weeklyAggAux rest (dayjsWeek dt) (some ⟨dt, vol⟩) :=
  weeklyAggAux_cons_ne ⟨dt, vol, liq, mlt⟩ rest w cur h

theorem weeklyAggAux_cons_eq_mk {μ : Type} (dt : Nat) (vol liq : ℚ) (mlt : μ)
    (rest : List (GDay μ)) (w : Int) (cur : Option WeeklyEntry)
    (h : ((dayjsWeek dt : Nat) : Int) = w) :
    weeklyAggAux (⟨dt, vol, liq, mlt⟩ :: rest) w cur =
      weeklyAggAux rest w (cur.map fun b => ⟨dt, b.weeklyVolumeUSD + vol⟩) :=
  weeklyAggAux_cons_eq ⟨dt, vol, liq, mlt⟩ rest w cur h

theorem weeklyAggAux_length_some {μ : Type} :
    ∀ (ds : List (GDay μ)) (w : Nat) (b : WeeklyEntry),
      (weeklyAggAux ds ((w : Nat) : Int) (some b)).length =
        1 + adjChanges (w :: ds.map fun d => dayjsWeek d.date) := by
  intro ds
  induction ds with
  | nil =>
    intro w b
    simp [weeklyAggAux, adjChanges]
  | cons d rest ih =>
    intro w b
    by_cases h : dayjsWeek d.date = w
    · rw [weeklyAggAux_cons_eq d rest _ _ (by exact_mod_cast h)]
      simp only [Option.map_some']
      rw [ih w ⟨d.date, b.weeklyVolumeUSD + d.dailyVolumeUSD⟩]
      simp only [List.map_cons, adjChanges, h]
      rw [if_pos trivial]
      omega
    · rw [weeklyAggAux_cons_ne d rest _ _ (by exact_mod_cast h)]
      simp only [Option.toList_some, List.singleton_append, List.length_cons]
      rw [ih (dayjsWeek d.date) ⟨d.date, d.dailyVolumeUSD⟩]
      have hne : ¬ w = dayjsWeek d.date := fun hc => h hc.symm
      simp only [List.map_cons, adjChanges, if_neg hne]
      omega

theorem weeklyAgg_length {μ : Type} (d : GDay μ) (rest : List (GDay μ)) :
    (weeklyAgg (d :: rest)).length =
      1 + adjChanges ((d :: rest).map fun x => dayjsWeek x.date) := by
  rw [weeklyAgg, weeklyAggAux_cons_ne d rest (-1) none (by omega)]
  simp only [Option.toList_none, List.nil_append]
  rw [weeklyAggAux_length_some rest (dayjsWeek d.date) ⟨d.date, d.dailyVolumeUSD⟩]
  simp only [List.map_cons]

/-- C5 counterexample: the 14 consecutive daily buckets from Monday
2022-12-26 to Sunday 2023-01-08 cross exactly one ISO-week boundary
(2023-01-02 starts a new ISO week), yet the weekly re-aggregation produces
THREE buckets, not two: `.week()` is the locale week (Sunday start), December
26-31 map to week 53 of 2022, January 1 (a Sunday) to the plugin's week 0
artifact, and January 2-8 to week 1. -/
theorem C5_counterexample_iso_weekly :
    adjChanges ((List.range 14).map fun i => isoWeekIndex (1672012800 + i * 86400)) = 1 ∧
    (weeklyAgg ((List.range 14).map
      fun i => (⟨1672012800 + i * 86400, 1, 0, ()⟩ : GDay Unit))).length = 3 := by
  constructor
  · decide
  · decide

set_option maxRecDepth 4000 in
/-- C5 (amended): the weekly re-aggregation starts a new bucket exactly when
the dayjs `.week()` number (the Sunday-started locale week, with its week-0
and late-December artifacts — not the ISO week) differs from the previous
day's, so a non-empty daily series yields one bucket more than the number of
adjacent `.week()` changes; for the 14 consecutive days 2023-01-02 to
2023-01-15 (which cross one week boundary away from a year transition) it
produces exactly two buckets, each dated by its last day and summing the
daily volumes of its days in order. -/
theorem C5_amended_weekly_buckets :
    (∀ (μ : Type) (d : GDay μ) (rest : List (GDay μ)),
      (weeklyAgg (d :: rest)).length =
        1 + adjChanges ((d :: rest).map fun x => dayjsWeek x.date)) ∧
    (∀ v : Nat → ℚ,
      weeklyAgg ((List.range 14).map
        fun i => (⟨1672617600 + i * 86400, v i, 0, ()⟩ : GDay Unit)) =
      [⟨1673136000, v 0 + v 1 + v 2 + v 3 + v 4 + v 5 + v 6⟩,
       ⟨1673740800, v 7 + v 8 + v 9 + v 10 + v 11 + v 12 + v 13⟩]) := by
  constructor
  · intro μ d rest
    exact weeklyAgg_length d rest
  · intro v
    have hr : List.range 14 = [0, 1, 2, 3, 4, 5, 6, 7, 8, 9, 10, 11, 12, 13] := by decide
    rw [hr]
    simp only [List.map_cons, List.map_nil]
    norm_num
    have n0 : ((dayjsWeek 1672617600 : Nat) : Int) ≠ (-1 : Int) := by decide
    have e1 : ((dayjsWeek 1672704000 : Nat) : Int) = ((dayjsWeek 1672617600 : Nat) : Int) := by decide
    have e2 : ((dayjsWeek 1672790400 : Nat) : Int) = ((dayjsWeek 1672617600 : Nat) : Int) := by decide
    have e3 : ((dayjsWeek 1672876800 : Nat) : Int) = ((dayjsWeek 1672617600 : Nat) : Int) := by decide
    have e4 : ((dayjsWeek 1672963200 : Nat) : Int) = ((dayjsWeek 1672617600 : Nat) : Int) := by decide
    have e5 : ((dayjsWeek 1673049600 : Nat) : Int) = ((dayjsWeek 1672617600 : Nat) : Int) := by decide
    have e6 : ((dayjsWeek 1673136000 : Nat) : Int) = ((dayjsWeek 1672617600 : Nat) : Int) := by decide
    have n7 : ((dayjsWeek 1673222400 : Nat) : Int) ≠ ((dayjsWeek 1672617600 : Nat) : Int) := by decide
    have e8 : ((dayjsWeek 1673308800 : Nat) : Int) = ((dayjsWeek 1673222400 : Nat) : Int) := by decide
    have e9 : ((dayjsWeek 1673395200 : Nat) : Int) = ((dayjsWeek 1673222400 : Nat) : Int) := by decide
    have e10 : ((dayjsWeek 1673481600 : Nat) : Int) = ((dayjsWeek 1673222400 : Nat) : Int) := by decide
    have e11 : ((dayjsWeek 1673568000 : Nat) : Int) = ((dayjsWeek 1673222400 : Nat) : Int) := by decide
    have e12 : ((dayjsWeek 1673654400 : Nat) : Int) = ((dayjsWeek 1673222400 : Nat) : Int) := by decide
    have e13 : ((dayjsWeek 1673740800 : Nat) : Int) = ((dayjsWeek 1673222400 : Nat) : Int) := by decide
    rw [weeklyAgg,
      weeklyAggAux_cons_ne_mk _ _ _ _ _ _ _ n0,
      weeklyAggAux_cons_eq_mk _ _ _ _ _ _ _ e1,
      weeklyAggAux_cons_eq_mk _ _ _ _ _ _ _ e2,
      weeklyAggAux_cons_eq_mk _ _ _ _ _ _ _ e3,
      weeklyAggAux_cons_eq_mk _ _ _ _ _ _ _ e4,
      weeklyAggAux_cons_eq_mk _ _ _ _ _ _ _ e5,
      weeklyAggAux_cons_eq_mk _ _ _ _ _ _ _ e6,
      weeklyAggAux_cons_ne_mk _ _ _ _ _ _ _ n7,
      weeklyAggAux_cons_eq_mk _ _ _ _ _ _ _ e8,
      weeklyAggAux_cons_eq_mk _ _ _ _ _ _ _ e9,
      weeklyAggAux_cons_eq_mk _ _ _ _ _ _ _ e10,
      weeklyAggAux_cons_eq_mk _ _ _ _ _ _ _ e11,
      weeklyAggAux_cons_eq_mk _ _ _ _ _ _ _ e12,
      weeklyAggAux_cons_eq_mk _ _ _ _ _ _ _ e13]
    simp [weeklyAggAux]

end UbeswapInfo
